import Mathlib

/-!
# bq-utilization-alerts: the `statequery` package

A shallow embedding of the reservation pipeline of `src/statequery` and the
properties of it that the specification states.

Conventions of the embedding.

* A `float64` is an `F64`: a finite value `±m·2^e` in binary64 normal form, an
  infinity or NaN.  Addition, multiplication, division and the conversion from
  `int64` compute the exact result on integers and round it to the nearest
  binary64 value, ties to even, with the IEEE rules for signed zeros,
  infinities, NaN, overflow and subnormal numbers.
* Go `int` and `int64` values are `Int`.  A conversion `int(x)` of a `float64`
  that does not fit is implementation-dependent in Go; the result of amd64 is
  used.
* A Go `map[string]T` that the code ranges over (`State.Reservations`) is an
  association list with `mapGet` / `mapSet`; its keys are pairwise distinct.
  The cache's map is only read, written and deleted at single keys, and is a
  function from keys to optional entries.
* Calls to upstream services are parameters (their answers), and the wall
  clock read by `time.Now()` is an explicit argument.
* A pointer that an upstream answer may leave nil is an `Option`; reading a
  field through a nil pointer ends the call with `Outcome.panic`.
-/

namespace statequery

/-! ## float64 -/

/-- A `float64`: a finite value `(-1)^neg · m · 2^e`, an infinity, or NaN.
The operations below return finite values in binary64 normal form: `m < 2^53`,
`-1074 ≤ e ≤ 971`, and `2^52 ≤ m` unless `e = -1074`; zero is `m = 0`,
`e = -1074`, with its sign. -/
inductive F64 where
  | fin (neg : Bool) (m : Nat) (e : Int)
  | inf (neg : Bool)
  | nan
deriving DecidableEq

/-- The value `+0`. -/
def F64.zero : F64 := F64.fin false 0 (-1074)

/-- The number of binary digits of `n` (`fuel` bounds it; `n` is enough). -/
def F64.bitLength : Nat → Nat → Nat
  | 0, _ => 0
  | fuel + 1, n => if n = 0 then 0 else F64.bitLength fuel (n / 2) + 1

/-- The position of the leading binary digit of a positive `n`. -/
def F64.log2Floor (n : Nat) : Nat := F64.bitLength n n - 1

/-- The quotient `num / den` rounded to the nearest natural number, ties to
even. -/
def roundHalfEvenDiv (num den : Nat) : Nat :=
  if den < 2 * (num % den) ∨ (2 * (num % den) = den ∧ (num / den) % 2 = 1) then num / den + 1
  else num / den

/-- The binary64 value nearest to `(-1)^neg · num / den`, ties to even: the
exponent is that of the leading digit of the quotient less 52, not below
-1074 (subnormal numbers); a significand rounded up to `2^53` moves to the
next exponent, and an exponent above 971 overflows to infinity. -/
def F64.round (neg : Bool) (num den : Nat) : F64 :=
  if num = 0 ∨ den = 0 then F64.fin neg 0 (-1074)
  else
    let k : Int := (F64.log2Floor num : Int) - (F64.log2Floor den : Int)
    let lg : Int := if den * 2 ^ k.toNat ≤ num * 2 ^ (-k).toNat then k else k - 1
    let e : Int := max (lg - 52) (-1074)
    let m := roundHalfEvenDiv (num * 2 ^ (-e).toNat) (den * 2 ^ e.toNat)
    let e2 : Int := if m = 2 ^ 53 then e + 1 else e
    let m2 : Nat := if m = 2 ^ 53 then 2 ^ 52 else m
    if 971 < e2 then F64.inf neg else F64.fin neg m2 e2

/-- The integer `(-1)^neg · m`. -/
def F64.signed (neg : Bool) (m : Nat) : Int := if neg then -(m : Int) else (m : Int)

/-- The sum `x + y` of two `float64` values. -/
def F64.add : F64 → F64 → F64
  | F64.nan, _ => F64.nan
  | _, F64.nan => F64.nan
  | F64.inf a, F64.inf b => if a = b then F64.inf a else F64.nan
  | F64.inf a, F64.fin _ _ _ => F64.inf a
  | F64.fin _ _ _, F64.inf b => F64.inf b
  | F64.fin n1 m1 e1, F64.fin n2 m2 e2 =>
    let e := min e1 e2
    let s : Int :=
      F64.signed n1 (m1 * 2 ^ (e1 - e).toNat) + F64.signed n2 (m2 * 2 ^ (e2 - e).toNat)
    if s = 0 then F64.fin (n1 && n2) 0 (-1074)
    else F64.round (decide (s < 0)) (s.natAbs * 2 ^ e.toNat) (2 ^ (-e).toNat)

/-- The product `x * y` of two `float64` values. -/
def F64.mul : F64 → F64 → F64
  | F64.nan, _ => F64.nan
  | _, F64.nan => F64.nan
  | F64.inf a, F64.inf b => F64.inf (a != b)
  | F64.inf a, F64.fin n m _ => if m = 0 then F64.nan else F64.inf (a != n)
  | F64.fin n m _, F64.inf b => if m = 0 then F64.nan else F64.inf (n != b)
  | F64.fin n1 m1 e1, F64.fin n2 m2 e2 =>
    if m1 = 0 ∨ m2 = 0 then F64.fin (n1 != n2) 0 (-1074)
    else F64.round (n1 != n2) (m1 * m2 * 2 ^ (e1 + e2).toNat) (2 ^ (-(e1 + e2)).toNat)

/-- The quotient `x / y` of two `float64` values. -/
def F64.div : F64 → F64 → F64
  | F64.nan, _ => F64.nan
  | _, F64.nan => F64.nan
  | F64.inf _, F64.inf _ => F64.nan
  | F64.inf a, F64.fin n _ _ => F64.inf (a != n)
  | F64.fin n _ _, F64.inf b => F64.fin (n != b) 0 (-1074)
  | F64.fin n1 m1 e1, F64.fin n2 m2 e2 =>
    if m2 = 0 then (if m1 = 0 then F64.nan else F64.inf (n1 != n2))
    else if m1 = 0 then F64.fin (n1 != n2) 0 (-1074)
    else F64.round (n1 != n2) (m1 * 2 ^ (e1 - e2).toNat) (m2 * 2 ^ (e2 - e1).toNat)

/-- The conversion `float64(n)` of an integer. -/
def F64.ofInt (n : Int) : F64 := F64.round (decide (n < 0)) n.natAbs 1

/-- The order of two `float64` values; none when one of them is NaN.  The two
zeros are equal. -/
def F64.compare : F64 → F64 → Option Ordering
  | F64.nan, _ => none
  | _, F64.nan => none
  | F64.inf a, F64.inf b =>
    some (if a = b then Ordering.eq else if a then Ordering.lt else Ordering.gt)
  | F64.inf a, F64.fin _ _ _ => some (if a then Ordering.lt else Ordering.gt)
  | F64.fin _ _ _, F64.inf b => some (if b then Ordering.gt else Ordering.lt)
  | F64.fin n1 m1 e1, F64.fin n2 m2 e2 =>
    let e := min e1 e2
    let a := F64.signed n1 (m1 * 2 ^ (e1 - e).toNat)
    let b := F64.signed n2 (m2 * 2 ^ (e2 - e).toNat)
    some (if a < b then Ordering.lt else if a = b then Ordering.eq else Ordering.gt)

/-- The comparison `x >= y`. -/
def F64.ge (x y : F64) : Bool :=
  match F64.compare x y with
  | some Ordering.gt => true
  | some Ordering.eq => true
  | _ => false

/-- The comparison `x == y`. -/
def F64.eq (x y : F64) : Bool :=
  match F64.compare x y with
  | some Ordering.eq => true
  | _ => false

/-- The comparison `x < y`. -/
def F64.lt (x y : F64) : Bool :=
  match F64.compare x y with
  | some Ordering.lt => true
  | _ => false

/-- Whether a `float64` is finite. -/
def F64.isFinite : F64 → Bool
  | F64.fin _ _ _ => true
  | _ => false

/-- The number that a finite `float64` denotes (0 for infinities and NaN). -/
def F64.toRat : F64 → ℚ
  | F64.fin neg m e => (if neg then -1 else 1) * (m : ℚ) * (2 : ℚ) ^ e
  | _ => 0

/-- The least integer not below a finite `float64` (0 for infinities and NaN):
the value of `math.Ceil(x)`, which is exact. -/
def F64.ceil : F64 → Int
  | F64.fin neg m e =>
    if neg then -((m * 2 ^ e.toNat / 2 ^ (-e).toNat : Nat) : Int)
    else (((m * 2 ^ e.toNat + (2 ^ (-e).toNat - 1)) / 2 ^ (-e).toNat : Nat) : Int)
  | _ => 0

/-- The conversion `int(math.Ceil(x))`: the ceiling when `x` is finite and the
ceiling is an `int64`; otherwise the conversion is implementation-dependent,
and the result is that of amd64, the least `int64`. -/
def F64.ceilToInt (x : F64) : Int :=
  if x.isFinite = true ∧ -(2 ^ 63 : Int) ≤ x.ceil ∧ x.ceil < 2 ^ 63 then x.ceil
  else -(2 ^ 63 : Int)

/-- The decimal digit character of `n % 10`. -/
def digitChar (n : Nat) : Char := Char.ofNat (48 + n % 10)

/-- The decimal digits of `n`, most significant first (`fuel` bounds the
number of digits; `n` itself is enough). -/
def natDigits : Nat → Nat → List Char
  | 0, n => [digitChar n]
  | fuel + 1, n =>
    if n < 10 then [digitChar n] else natDigits fuel (n / 10) ++ [digitChar n]

/-- The number that a list of decimal digit characters denotes. -/
def digitsValue (cs : List Char) : Nat :=
  cs.foldl (fun acc c => acc * 10 + (c.toNat - 48)) 0

/-- The number of hundredths nearest to `m · 2^e`, ties to even. -/
def hundredths (m : Nat) (e : Int) : Nat :=
  roundHalfEvenDiv (m * 100 * 2 ^ e.toNat) (2 ^ (-e).toNat)

/-- The verb `%.2f` on the finite value `(-1)^neg · m · 2^e`: the sign of a
negative value (also of `-0`), the integer part, a point, and two fraction
digits, the exact value rounded to the nearest hundredth, ties to even. -/
def formatFixed2 (neg : Bool) (m : Nat) (e : Int) : String :=
  String.mk ((if neg then ['-'] else [])
    ++ natDigits (hundredths m e / 100) (hundredths m e / 100)
    ++ ['.', digitChar (hundredths m e / 10), digitChar (hundredths m e)])

/-- The verb `fmt.Sprintf("%.2f", x)`. -/
def F64.format2 : F64 → String
  | F64.fin neg m e => formatFixed2 neg m e
  | F64.inf false => "+Inf"
  | F64.inf true => "-Inf"
  | F64.nan => "NaN"

/-- The sum of a list of `float64` values, added one by one in the order of the
list, starting from `+0`. -/
def float64Sum (xs : List F64) : F64 := xs.foldl F64.add F64.zero

/-! ## state.go -/

/-- Type for job data. -/
structure Job where
  Name : String
  Usage : F64
deriving DecidableEq

/-- Type for individual reservation data. -/
structure Reservation where
  Name : String
  Location : String
  Slots : F64
  Projects : List String
  Jobs : List Job
  NumJobs : Int
  TotalUsage : F64
  TotalUsageCeiling : Int
  ThresholdBreached : Bool
  Percentage : String
deriving DecidableEq

/-- Lookup `m[id]` in a Go map held as an association list. -/
def mapGet {α : Type} : List (String × α) → String → Option α
  | [], _ => none
  | (k, v) :: rest, id => if k = id then some v else mapGet rest id

/-- Assignment `m[id] = v` in a Go map held as an association list. -/
def mapSet {α : Type} : List (String × α) → String → α → List (String × α)
  | [], id, v => [(id, v)]
  | (k, w) :: rest, id, v => if k = id then (k, v) :: rest else (k, w) :: mapSet rest id v

/-- Type to hold all state per execution. -/
structure State where
  Reservations : List (String × Reservation)

/-- The map invariant of `State.Reservations`: no key occurs twice. -/
def State.WellFormed (state : State) : Prop :=
  (state.Reservations.map Prod.fst).Nodup

/-! ## utilization.go -/

/-- The body of the loop of `ComputeUtilization` for one reservation. -/
def computeReservation (threshold : F64) (reservation : Reservation) : Reservation :=
  -- Total number of running jobs per reservation
  let r1 : Reservation := { reservation with NumJobs := (reservation.Jobs.length : Int) }
  -- Total slot usage across all jobs per reservation
  let r2 : Reservation :=
    { r1 with
      TotalUsage := r1.Jobs.foldl (fun total job => F64.add total job.Usage) r1.TotalUsage }
  -- Utilization factor
  let utilization := F64.div r2.TotalUsage r2.Slots
  -- Set breach flag if utilization crosses threshold
  let r3 : Reservation :=
    if F64.ge utilization threshold then { r2 with ThresholdBreached := true } else r2
  -- Round slot usage up to natural ceiling
  let r4 : Reservation := { r3 with TotalUsageCeiling := F64.ceilToInt r3.TotalUsage }
  -- Format printable utilization percentage
  { r4 with Percentage := F64.format2 (F64.mul utilization (F64.ofInt 100)) }

/-- Compute total utilization statistics per reservation and add them to the
state: every entry of the map is visited once and written back under its key. -/
def State.ComputeUtilization (state : State) (threshold : F64) : State :=
  state.Reservations.foldl
    (fun st entry =>
      { Reservations := mapSet st.Reservations entry.1 (computeReservation threshold entry.2) })
    state

/-- The usage ratios of a list of jobs. -/
def usages (jobs : List Job) : List F64 := jobs.map Job.Usage

/-! ## reservations.go and the state before `ComputeUtilization` -/

/-- A reservation as `retrieveReservationLocation` creates it: name, slot
capacity and location, every other field at its zero value. -/
def freshReservation (name location : String) (slots : F64) : Reservation :=
  { Name := name, Location := location, Slots := slots, Projects := [], Jobs := [],
    NumJobs := 0, TotalUsage := F64.zero, TotalUsageCeiling := 0, ThresholdBreached := false,
    Percentage := "" }

/-- The state that `RetrieveReservations` builds from the reservations it
receives on its channel, in their order of arrival: a new map, and each
reservation stored under `Location.Name`. -/
def State.RetrieveReservations (received : List Reservation) : State :=
  received.foldl
    (fun st reservation =>
      { Reservations := mapSet st.Reservations
          (reservation.Location ++ "." ++ reservation.Name) reservation })
    { Reservations := [] }

/-- The state after `RetrieveJobs`: for every reservation of the map, the jobs
received on its channel (`received`, by key, in their order of arrival) are
appended to `Jobs` and the reservation is written back under `Location.Name`. -/
def State.RetrieveJobs (received : String → List Job) (state : State) : State :=
  state.Reservations.foldl
    (fun st entry =>
      { Reservations := mapSet st.Reservations (entry.2.Location ++ "." ++ entry.2.Name)
          { entry.2 with Jobs := entry.2.Jobs ++ received entry.1 } })
    state

/-- The fields that only `ComputeUtilization` writes are at their zero values. -/
def Reservation.Underived (r : Reservation) : Prop :=
  r.NumJobs = 0 ∧ r.TotalUsage = F64.zero ∧ r.TotalUsageCeiling = 0
    ∧ r.ThresholdBreached = false ∧ r.Percentage = ""

/-- A state as the stages before `ComputeUtilization` build it: the keys of
the map are distinct and in every reservation the fields that only
`ComputeUtilization` writes are at their zero values. -/
def State.Collected (state : State) : Prop :=
  state.WellFormed ∧ ∀ id r, mapGet state.Reservations id = some r → r.Underived

/-! ## Scenarios of the utilization pass -/

/-- The `float64` nearest to 6/10. -/
def sixTenths : F64 := F64.round false 6 10

/-- The `float64` nearest to 8/10. -/
def eightTenths : F64 := F64.round false 8 10

/-- The reservation of Scenario B: `R2` with 10 slots, account `P1`, and two
collected query workloads of usage 4 and 3. -/
def scenarioBReservation : Reservation :=
  { freshReservation "R2" "US" (F64.ofInt 10) with
    Projects := ["P1"],
    Jobs := [⟨"P1:US.job1", F64.ofInt 4⟩, ⟨"P1:US.job2", F64.ofInt 3⟩] }

/-- Scenario B: the state that holds `scenarioBReservation` under its key. -/
def scenarioB : State :=
  { Reservations := [("US.R2", scenarioBReservation)] }

/-- A state with a freshly discovered reservation of slot capacity 0. -/
def zeroSlots : State :=
  { Reservations := [("US.R0", freshReservation "R0" "US" (F64.ofInt 0))] }

/-- Three jobs of usage 0.1, 0.2 and 0.3 (the nearest `float64` values). -/
def tenthsJobs : List Job :=
  [⟨"P1:US.job1", F64.round false 1 10⟩, ⟨"P1:US.job2", F64.round false 2 10⟩,
    ⟨"P1:US.job3", F64.round false 3 10⟩]

/-- A reservation with 1 slot that has collected the jobs of `tenthsJobs`. -/
def tenthsReservation : Reservation :=
  { freshReservation "R3" "US" (F64.ofInt 1) with Projects := ["P1"], Jobs := tenthsJobs }

/-- The state that holds `tenthsReservation`. -/
def tenths : State :=
  { Reservations := [("US.R3", tenthsReservation)] }

/-- The state of `tenths` with the three jobs in the reverse order. -/
def tenthsReversed : State :=
  { Reservations := [("US.R3", { tenthsReservation with Jobs := tenthsJobs.reverse })] }

/-- The threshold 0.6000000000000001: the `float64` sum (0.1 + 0.2) + 0.3. -/
def sumOfTenths : F64 := float64Sum (usages tenthsJobs)

/-- Ten jobs of usage 0.1 (the nearest `float64`). -/
def tenTenthsJobs : List Job :=
  List.replicate 10 ⟨"P1:US.job", F64.round false 1 10⟩

/-- A state with a reservation of 1 slot that has collected `tenTenthsJobs`. -/
def tenTenths : State :=
  { Reservations :=
      [("US.R4", { freshReservation "R4" "US" (F64.ofInt 1) with
                    Projects := ["P1"], Jobs := tenTenthsJobs })] }

/-- The utilization of Scenario B: the `float64` quotient of 7 and 10. -/
def sevenTenths : F64 := F64.div (F64.ofInt 7) (F64.ofInt 10)

/-- A state with a reservation of 1 slot that has collected one job whose
usage is the `float64` quotient of the greatest `int64` and 1, that is 2^63. -/
def hugeUsage : State :=
  { Reservations :=
      [("US.R5", { freshReservation "R5" "US" (F64.ofInt 1) with
                    Projects := ["P1"],
                    Jobs := [⟨"P1:US.job1", F64.div (F64.ofInt (2 ^ 63 - 1)) (F64.ofInt 1)⟩] })] }

/-- The jobs of Scenario B in the other order of arrival. -/
def scenarioBSwappedJobs : List Job :=
  [⟨"P1:US.job2", F64.ofInt 3⟩, ⟨"P1:US.job1", F64.ofInt 4⟩]

/-- Scenario B with its two jobs collected in the other order. -/
def scenarioBSwapped : State :=
  { Reservations := [("US.R2", { scenarioBReservation with Jobs := scenarioBSwappedJobs })] }

/-! ## cache.go -/

/-- Single cacheItem, timestamped to control freshness.  A `time.Time` is the
number of nanoseconds of the wall clock (`time.Now().UTC()` carries no
monotonic reading). -/
structure cacheItem where
  updated : Int
  projects : List String
deriving DecidableEq

/-- Cache type to hold frequently requested responses from the Resource Manager
API.  The value is an initialized cache: `items` is the map made by
`Initialize`; the mutex is not represented (calls are taken one at a time). -/
structure Cache where
  maxTTL : Int
  items : String → Option cacheItem

/-- The least `time.Duration` (an `int64` of nanoseconds). -/
def minDuration : Int := -(2 ^ 63)

/-- The greatest `time.Duration`. -/
def maxDuration : Int := 2 ^ 63 - 1

/-- The method `t.Sub(u)`: the duration `t - u`, saturated to the range of
`time.Duration`. -/
def timeSub (t u : Int) : Int :=
  if t - u < minDuration then minDuration
  else if maxDuration < t - u then maxDuration
  else t - u

/-- Initialize and configure cache. -/
def Cache.Initialize (maxTTL : Int) : Cache :=
  { maxTTL := maxTTL, items := fun _ => none }

/-- Add an item to the cache; `now` is the reading of `time.Now().UTC()`. -/
def Cache.Add (cache : Cache) (now : Int) (key : String) (projects : List String) : Cache :=
  { cache with
    items := fun k => if k = key then some { updated := now, projects := projects }
                      else cache.items k }

/-- Get an item from the cache.  Will return items if available and fresh
enough; `now` is the reading of `time.Now().UTC()`.  The result is the cache
after the call and the returned pair `([]string, error)`.  (The source reads
`cache.items[key].projects` once more after releasing the mutex; with calls
taken one at a time that is the item found above.) -/
def Cache.Get (cache : Cache) (now : Int) (key : String) :
    Cache × Except String (List String) :=
  match cache.items key with
  | none =>
    -- Cache miss
    (cache, Except.error ("key not in cache: " ++ key))
  | some item =>
    -- Check cache freshness
    let diff := timeSub now item.updated
    if diff ≥ cache.maxTTL then
      -- Cache is stale
      ({ cache with items := fun k => if k = key then none else cache.items k },
        Except.error ("cache appears stale for key: " ++ key))
    else
      -- Cache item OK
      (cache, Except.ok item.projects)

/-- A call on the cache, with the clock reading it makes. -/
inductive CacheOp where
  | add (now : Int) (key : String) (projects : List String)
  | get (now : Int) (key : String)

/-- The key a call is on. -/
def CacheOp.key : CacheOp → String
  | CacheOp.add _ key _ => key
  | CacheOp.get _ key => key

/-- Whether a call is an `Add` for `key`. -/
def CacheOp.isAddOf (key : String) : CacheOp → Bool
  | CacheOp.add _ k _ => decide (k = key)
  | CacheOp.get _ _ => false

/-- The cache after one call. -/
def Cache.step (cache : Cache) : CacheOp → Cache
  | CacheOp.add now key projects => cache.Add now key projects
  | CacheOp.get now key => (cache.Get now key).1

/-- The cache after a sequence of calls. -/
def Cache.run (cache : Cache) (ops : List CacheOp) : Cache :=
  ops.foldl Cache.step cache

/-- Whether a returned `error` is non-nil. -/
def isError {α : Type} : Except String α → Bool
  | Except.error _ => true
  | Except.ok _ => false

/-- One hour in nanoseconds, the `maxTTL` that `main` configures. -/
def hour : Int := 3600 * 1000000000

/-- Calls on two other keys, used between an `Add` and a `Get` of one key. -/
def otherKeyCalls : List CacheOp :=
  [CacheOp.add 5 "folders/F2" ["P9"], CacheOp.get 7 "organizations/ORG1"]

/-! ## assignments.go -/

/-- How a call ends: with a value and a nil error, with a non-nil error, with a
run-time panic, or (in the model only) with the recursion budget used up. -/
inductive Outcome (α : Type) where
  | ok (value : α)
  | err (msg : String)
  | panic (msg : String)
  | outOfFuel
deriving DecidableEq

/-- The worker of `stringsSplit`: `cur` is the token read so far, reversed. -/
def splitAux (sep : Char) : List Char → List Char → List String
  | cur, [] => [String.mk cur.reverse]
  | cur, c :: cs =>
    if c = sep then String.mk cur.reverse :: splitAux sep [] cs
    else splitAux sep (c :: cur) cs

/-- The call `strings.Split(s, sep)` for a separator of one character. -/
def stringsSplit (s : String) (sep : Char) : List String :=
  splitAux sep [] s.data

/-- The shared cache together with the number of readings of the wall clock
made so far; the `n`-th reading is `clock n` for a given `clock : Nat → Int`. -/
structure World where
  cache : Cache
  tick : Nat

/-- The answers of the Resource Manager API: for a qualified parent path, the
`Name`s of the folders listed under it (`Folders.List().Parent(parent).Do()`)
and the `ProjectId`s of the projects listed under it
(`Projects.List().Parent(parent).Do()`), or the error of the call. -/
structure Hierarchy where
  listFolders : String → Except String (List String)
  listProjects : String → Except String (List String)

/-- The loop over `folders.Folders` in `retrieveResourceChildren`; `recurse`
is the recursive call. -/
def resolveFolders (recurse : World → String → String → World × Outcome (List String)) :
    List String → World → List String → World × Outcome (List String)
  | [], w, result => (w, Outcome.ok result)
  | name :: rest, w, result =>
    -- tokens := strings.Split(folder.Name, "/"); folderName := tokens[1]
    match (stringsSplit name '/')[1]? with
    | none => (w, Outcome.panic "index out of range [1]")
    | some folderName =>
      match recurse w "folders" folderName with
      | (w1, Outcome.ok children) => resolveFolders recurse rest w1 (result ++ children)
      | (w1, other) => (w1, other)

/-- The loop over `projects.Projects` in `retrieveResourceChildren`. -/
def resolveProjects (recurse : World → String → String → World × Outcome (List String)) :
    List String → World → List String → World × Outcome (List String)
  | [], w, result => (w, Outcome.ok result)
  | projectId :: rest, w, result =>
    match recurse w "projects" projectId with
    | (w1, Outcome.ok children) => resolveProjects recurse rest w1 (result ++ children)
    | (w1, other) => (w1, other)

/-- Recursively traverses resources in Cloud Resource Manager to find all
children project IDs given a particular parent resource.  The first argument
after the clock bounds the depth of the recursion. -/
def retrieveResourceChildren (h : Hierarchy) (clock : Nat → Int) :
    Nat → World → String → String → World × Outcome (List String)
  | 0, w, _, _ => (w, Outcome.outOfFuel)
  | fuel + 1, w, resourceType, resourceName =>
    -- Qualified name of current parent
    let parent := resourceType ++ "/" ++ resourceName
    if resourceType = "projects" then
      -- Resource is a project, only return this particular resource
      (w, Outcome.ok [resourceName])
    else if resourceType = "organizations" ∨ resourceType = "folders" then
      -- Attempt cache resolution
      match w.cache.Get (clock w.tick) parent with
      | (c1, Except.ok result) =>
        -- Cache hit, return early
        ({ cache := c1, tick := w.tick + 1 }, Outcome.ok result)
      | (c1, Except.error _) =>
        -- Cache miss
        let w1 : World := { cache := c1, tick := w.tick + 1 }
        -- Resolve children of type folder
        match h.listFolders parent with
        | Except.error e => (w1, Outcome.err e)
        | Except.ok folders =>
          match resolveFolders (retrieveResourceChildren h clock fuel) folders w1 [] with
          | (w2, Outcome.ok result) =>
            -- Resolve children of type project
            match h.listProjects parent with
            | Except.error e => (w2, Outcome.err e)
            | Except.ok projects =>
              match resolveProjects (retrieveResourceChildren h clock fuel) projects w2
                  result with
              | (w3, Outcome.ok result) =>
                -- Update cache
                ({ cache := w3.cache.Add (clock w3.tick) parent result, tick := w3.tick + 1 },
                  Outcome.ok result)
              | (w3, other) => (w3, other)
          | (w2, other) => (w2, other)
    else (w, Outcome.err ("unexpected assignee resource type: " ++ resourceType))

/-- The loop of `trimDuplicates`: `occurrenceMap` reads false at a key that
was never set. -/
def trimDuplicatesLoop : List String → (String → Bool) → List String → List String
  | [], _, uniqueItems => uniqueItems
  | item :: rest, occurrenceMap, uniqueItems =>
    if item ≠ "" then
      if !occurrenceMap item then
        trimDuplicatesLoop rest (fun k => if k = item then true else occurrenceMap k)
          (uniqueItems ++ [item])
      else trimDuplicatesLoop rest occurrenceMap uniqueItems
    else trimDuplicatesLoop rest occurrenceMap uniqueItems

/-- Trim duplicate strings from a slice. -/
def trimDuplicates (s : List String) : List String :=
  trimDuplicatesLoop s (fun _ => false) []

/-- The loop over the listed assignments in `retrieveAssignmentReservation`;
`assignees` are the `Assignee` fields of the responses that the iterator
yields before it is done or fails. -/
def resolveAssignees (h : Hierarchy) (clock : Nat → Int) (fuel : Nat) :
    List String → World → List String → World × Outcome (List String)
  | [], w, projects => (w, Outcome.ok projects)
  | assignee :: rest, w, projects =>
    -- Break up full assignee ID
    match (stringsSplit assignee '/')[0]?, (stringsSplit assignee '/')[1]? with
    | some assigneeType, some assigneeName =>
      -- Retrieve all project children under an assignee
      match retrieveResourceChildren h clock fuel w assigneeType assigneeName with
      | (w1, Outcome.ok children) =>
        -- Add all project children to the state
        resolveAssignees h clock fuel rest w1 (projects ++ children)
      | (w1, Outcome.err _) =>
        -- the error is logged, and `children` is nil
        resolveAssignees h clock fuel rest w1 projects
      | (w1, other) => (w1, other)
    | _, _ => (w, Outcome.panic "index out of range [1]")

/-- Routine to retrieve assignments for a single reservation. -/
def retrieveAssignmentReservation (h : Hierarchy) (clock : Nat → Int) (fuel : Nat)
    (assignees : List String) (w : World) (state : State) (reservation : Reservation) :
    World × Outcome State :=
  match resolveAssignees h clock fuel assignees w reservation.Projects with
  | (w1, Outcome.ok projects) =>
    -- Remove duplicates
    let reservation : Reservation := { reservation with Projects := trimDuplicates projects }
    let id := reservation.Location ++ "." ++ reservation.Name
    (w1, Outcome.ok { Reservations := mapSet state.Reservations id reservation })
  | (w1, Outcome.err e) => (w1, Outcome.err e)
  | (w1, Outcome.panic m) => (w1, Outcome.panic m)
  | (w1, Outcome.outOfFuel) => (w1, Outcome.outOfFuel)

/-- The list of first occurrences of the non-empty elements of a list, in
their original order: an element is kept when it is not empty and is not among
the elements `seen` before it. -/
def firstOccurrencesFrom : List String → List String → List String
  | _, [] => []
  | seen, x :: xs =>
    if x ≠ "" ∧ x ∉ seen then x :: firstOccurrencesFrom (seen ++ [x]) xs
    else firstOccurrencesFrom (seen ++ [x]) xs

/-- The list of first occurrences of the non-empty elements of `s`. -/
def firstOccurrences (s : List String) : List String :=
  firstOccurrencesFrom [] s

/-- The leaf projects transitively beneath a node of the hierarchy, the node
given by its qualified path: the projects listed under it, and the leaf
projects beneath each folder listed under it. -/
inductive LeafBeneath (h : Hierarchy) : String → String → Prop where
  | direct {parent : String} {projects : List String} {p : String} :
      h.listProjects parent = Except.ok projects → p ∈ projects → LeafBeneath h parent p
  | nested {parent : String} {folders : List String} {name folderName p : String} :
      h.listFolders parent = Except.ok folders → name ∈ folders →
      (stringsSplit name '/')[1]? = some folderName →
      LeafBeneath h ("folders" ++ "/" ++ folderName) p → LeafBeneath h parent p

/-- The nodes of the hierarchy at or beneath `root`, by qualified path. -/
inductive Reaches (h : Hierarchy) (root : String) : String → Prop where
  | self : Reaches h root root
  | child {parent : String} {folders : List String} {name folderName : String} :
      Reaches h root parent → h.listFolders parent = Except.ok folders → name ∈ folders →
      (stringsSplit name '/')[1]? = some folderName →
      Reaches h root ("folders" ++ "/" ++ folderName)

/-- The hierarchy beneath `parent` is finite and acyclic with at most `d`
levels of folders, its listings succeed, and every listed folder name has the
form `folders/<id>` (a second token). -/
def Subtree (h : Hierarchy) : Nat → String → Prop
  | 0, _ => False
  | d + 1, parent =>
    ∃ folders projects,
      h.listFolders parent = Except.ok folders ∧ h.listProjects parent = Except.ok projects
      ∧ ∀ name ∈ folders, ∃ folderName,
          (stringsSplit name '/')[1]? = some folderName
          ∧ Subtree h d ("folders" ++ "/" ++ folderName)

/-- Every cache entry under a key in `P` holds exactly the leaf projects
beneath that node. -/
def SoundOn (P : String → Prop) (h : Hierarchy) (cache : Cache) : Prop :=
  ∀ k item, P k → cache.items k = some item → ∀ p, p ∈ item.projects ↔ LeafBeneath h k p

/-- Scenario C: organization `ORG1` contains folder `F1`, which contains the
projects `P1` and `P2`, and directly contains project `P3`. -/
def scenarioC : Hierarchy where
  listFolders := fun parent =>
    if parent = "organizations/ORG1" then Except.ok ["folders/F1"]
    else if parent = "folders/F1" then Except.ok []
    else Except.error "not found"
  listProjects := fun parent =>
    if parent = "organizations/ORG1" then Except.ok ["P3"]
    else if parent = "folders/F1" then Except.ok ["P1", "P2"]
    else Except.error "not found"

/-- A hierarchy in which every listing fails. -/
def failingHierarchy : Hierarchy where
  listFolders := fun _ => Except.error "unavailable"
  listProjects := fun _ => Except.error "unavailable"

/-- A world with a cold cache of `maxTTL` one hour and no clock reading made. -/
def coldWorld : World := { cache := Cache.Initialize hour, tick := 0 }

/-- A clock that advances one second per reading. -/
def secondsClock (n : Nat) : Int := (n : Int) * 1000000000

/-- The world after Scenario C has been resolved once from the cold cache. -/
def warmWorld : World :=
  (retrieveResourceChildren scenarioC secondsClock 3 coldWorld "organizations" "ORG1").1

/-! ## jobs.go -/

/-- A sample of a query's timeline: `ElapsedMs` and `TotalSlotMs` (`int64`). -/
structure QueryTimelineSample where
  ElapsedMs : Int
  TotalSlotMs : Int
deriving DecidableEq

/-- A `bigquerySDK.JobReference`, as far as the code reads it. -/
structure JobReference where
  JobId : String
deriving DecidableEq

/-- A `bigquerySDK.JobConfiguration`, as far as the code reads it. -/
structure JobConfiguration where
  JobType : String
deriving DecidableEq

/-- A `bigquerySDK.JobStatistics2`, the statistics of a query job, as far as
the code reads it. -/
structure JobStatistics2 where
  Timeline : List QueryTimelineSample
deriving DecidableEq

/-- A `bigquerySDK.JobStatistics`, as far as the code reads it; `Query` is a
pointer, nil when the answer has no `statistics.query`. -/
structure JobStatistics where
  Query : Option JobStatistics2
  ReservationId : String
deriving DecidableEq

/-- A `bigquerySDK.Job` as `Jobs.Get` returns it, as far as the code reads it;
`Configuration`, `JobReference` and `Statistics` are pointers, nil when the
answer lacks the field. -/
structure JobDetail where
  Configuration : Option JobConfiguration
  Id : String
  JobReference : Option JobReference
  Statistics : Option JobStatistics
deriving DecidableEq

/-- An entry of `list.Jobs`, a `bigquerySDK.JobListJobs`, as far as the code
reads it; `JobReference` is a pointer. -/
structure JobListJobs where
  JobReference : Option JobReference
deriving DecidableEq

/-- The answers of the BigQuery API: for a project, the jobs that
`Jobs.List(project).AllUsers(true).StateFilter("running")` lists, and for a
project and a job id the job that `Jobs.Get` returns, or the error of the
call. -/
structure BigQuery where
  list : String → Except String (List JobListJobs)
  get : String → String → Except String JobDetail

/-- Find the latest statistics sample in the job timeline, starting from the
zero sample `&bigquerySDK.QueryTimelineSample{}`. -/
def latestSnapshot (timeline : List QueryTimelineSample) : QueryTimelineSample :=
  timeline.foldl
    (fun latestSnapshot sample =>
      if sample.ElapsedMs > latestSnapshot.ElapsedMs then sample else latestSnapshot)
    { ElapsedMs := 0, TotalSlotMs := 0 }

/-- The branch of a skipped job type: the log line reads
`current.JobReference.JobId`, then `continue`. -/
def skipJob (current : JobDetail) : Outcome (Option Job) :=
  match current.JobReference with
  | none => Outcome.panic "nil pointer dereference"
  | some _ => Outcome.ok none

/-- The `switch` on the job type in `retrieveJobsProject` for one refreshed
job: the job pushed down the channel, if any, or the panic of reading through
a nil pointer.  (The comparison with the expected reservation ID only logs a
warning, with values that are at hand.) -/
def jobOf (current : JobDetail) : Outcome (Option Job) :=
  match current.Configuration with
  | none => Outcome.panic "nil pointer dereference"
  | some configuration =>
    if configuration.JobType = "LOAD" then skipJob current
    else if configuration.JobType = "COPY" then skipJob current
    else if configuration.JobType = "EXTRACT" then skipJob current
    else if configuration.JobType = "UNKNOWN" then skipJob current
    else if configuration.JobType = "QUERY" then
      match current.Statistics with
      | none => Outcome.panic "nil pointer dereference"
      | some statistics =>
        -- Get query-specific stats on this job.
        match statistics.Query with
        | none => Outcome.panic "nil pointer dereference"
        | some stats =>
          let runtimeMillis := (latestSnapshot stats.Timeline).ElapsedMs
          let slotMillis := (latestSnapshot stats.Timeline).TotalSlotMs
          -- Safely check stats before division
          if runtimeMillis = 0 ∨ slotMillis = 0 then Outcome.ok none
          else
            -- Compute slot usage by eliminating time
            Outcome.ok (some { Name := current.Id,
                               Usage := F64.div (F64.ofInt slotMillis) (F64.ofInt runtimeMillis) })
    else Outcome.ok none

/-- The loop over `list.Jobs` in `retrieveJobsProject`; `sent` are the jobs
pushed down the channel so far.  When `Jobs.Get` fails the error is logged and
`current` is nil, so that reading `current.Configuration` panics; a panic ends
the worker, and the jobs after it are not fetched. -/
def retrieveJobsLoop (client : BigQuery) (project : String) :
    List JobListJobs → List Job → List Job × Outcome Unit
  | [], sent => (sent, Outcome.ok ())
  | job :: rest, sent =>
    match job.JobReference with
    | none => (sent, Outcome.panic "nil pointer dereference")
    | some reference =>
      match client.get project reference.JobId with
      | Except.error _ => (sent, Outcome.panic "nil pointer dereference")
      | Except.ok current =>
        match jobOf current with
        | Outcome.ok (some found) => retrieveJobsLoop client project rest (sent ++ [found])
        | Outcome.ok none => retrieveJobsLoop client project rest sent
        | Outcome.err msg => (sent, Outcome.err msg)
        | Outcome.panic msg => (sent, Outcome.panic msg)
        | Outcome.outOfFuel => (sent, Outcome.outOfFuel)

/-- Routine to retrieve BQ job stats for a given project: the jobs it pushes
down the channel, in order, and how it ends.  When `Jobs.List` fails the error
is logged and `list` is nil, so that reading `list.Jobs` panics. -/
def retrieveJobsProject (client : BigQuery) (project : String) (_reservation : Reservation) :
    List Job × Outcome Unit :=
  match client.list project with
  | Except.error _ => ([], Outcome.panic "nil pointer dereference")
  | Except.ok list => retrieveJobsLoop client project list []

/-- The entry of `list.Jobs` for a job id. -/
def listed (jobId : String) : JobListJobs := { JobReference := some ⟨jobId⟩ }

/-- A refreshed job with every field present. -/
def jobDetail (jobId jobType : String) (timeline : List QueryTimelineSample) : JobDetail :=
  { Configuration := some ⟨jobType⟩, Id := "P1:US." ++ jobId, JobReference := some ⟨jobId⟩,
    Statistics := some { Query := some ⟨timeline⟩, ReservationId := "P1:US.R2" } }

/-- The running jobs of project `P1`: a query with two samples, a load job, a
query whose only sample has elapsed time 0, a query whose answer has no
`statistics.query`, and a query with one sample. -/
def runningJobs (jobId : String) : JobDetail :=
  if jobId = "q1" then jobDetail "q1" "QUERY" [⟨1000, 4000⟩, ⟨500, 100⟩]
  else if jobId = "l1" then
    { jobDetail "l1" "LOAD" [] with
      Statistics := some { Query := none, ReservationId := "P1:US.R2" } }
  else if jobId = "z1" then jobDetail "z1" "QUERY" [⟨0, 0⟩]
  else if jobId = "nq" then
    { jobDetail "nq" "QUERY" [] with
      Statistics := some { Query := none, ReservationId := "P1:US.R2" } }
  else jobDetail "q2" "QUERY" [⟨2000, 6000⟩]

/-- A BigQuery service on which project `P1` runs the jobs `q1`, `l1`, `z1`
and `q2` of `runningJobs`. -/
def bigQueryP1 : BigQuery where
  list := fun project =>
    if project = "P1" then Except.ok [listed "q1", listed "l1", listed "z1", listed "q2"]
    else Except.ok []
  get := fun _ jobId => Except.ok (runningJobs jobId)

/-- A BigQuery service on which project `P1` runs the jobs `q1`, `nq` and
`q2` of `runningJobs`; the answer for `nq` has no `statistics.query`. -/
def bigQueryNoStatistics : BigQuery where
  list := fun _ => Except.ok [listed "q1", listed "nq", listed "q2"]
  get := fun _ jobId => Except.ok (runningJobs jobId)

/-- A BigQuery service whose listing of running jobs fails. -/
def bigQueryListFails : BigQuery where
  list := fun _ => Except.error "googleapi: Error 403: Access Denied"
  get := fun _ jobId => Except.ok (runningJobs jobId)

/-- A BigQuery service that lists the jobs `q1`, `gone` and `q2` and fails to
return the detail of `gone`. -/
def bigQueryGetFails : BigQuery where
  list := fun _ => Except.ok [listed "q1", listed "gone", listed "q2"]
  get := fun _ jobId =>
    if jobId = "gone" then Except.error "googleapi: Error 404: Not found"
    else Except.ok (runningJobs jobId)

/-- A refreshed job none of whose pointers that the code reads is nil: it has
a configuration and a job reference and, when it is a QUERY job, statistics
with `statistics.query`. -/
def JobDetail.Complete (current : JobDetail) : Prop :=
  ∃ configuration reference,
    current.Configuration = some configuration ∧ current.JobReference = some reference
      ∧ (configuration.JobType = "QUERY" →
          ∃ statistics stats, current.Statistics = some statistics ∧ statistics.Query = some stats)

/-- The job type of a refreshed job (empty without a configuration). -/
def JobDetail.JobType (current : JobDetail) : String :=
  match current.Configuration with
  | some configuration => configuration.JobType
  | none => ""

/-- The timeline of a refreshed job (empty without `statistics.query`). -/
def JobDetail.Timeline (current : JobDetail) : List QueryTimelineSample :=
  match current.Statistics with
  | some statistics =>
    match statistics.Query with
    | some stats => stats.Timeline
    | none => []
  | none => []

/-- The switch of `retrieveJobsProject` on a refreshed job none of whose
pointers is nil: the job that it pushes down the channel, if any. -/
def emitted (current : JobDetail) : Option Job :=
  if current.JobType = "QUERY" ∧ (latestSnapshot current.Timeline).ElapsedMs ≠ 0
      ∧ (latestSnapshot current.Timeline).TotalSlotMs ≠ 0 then
    some { Name := current.Id,
           Usage := F64.div (F64.ofInt (latestSnapshot current.Timeline).TotalSlotMs)
             (F64.ofInt (latestSnapshot current.Timeline).ElapsedMs) }
  else none

def discovered : State :=
  { Reservations := [("US.R2", freshReservation "R2" "US" (F64.ofInt 10))] }

/-- Assignees of a reservation: the organization of Scenario C, one of its
projects once more, and a project assignee with an empty identifier. -/
def assigneesC : List String := ["organizations/ORG1", "projects/P1", "projects/"]

/-- The reservation of Scenario B with its two jobs in the other order. -/

inductive CacheEvent where
  | lock
  | unlock
  | readItems (key : String)
  | writeItems (key : String)
  | deleteItems (key : String)
deriving DecidableEq

/-- The method `Add` with its mutex operations and map accesses: `Lock`, the
assignment `cache.items[key] = ...`, `Unlock`. -/
def Cache.AddTraced (cache : Cache) (now : Int) (key : String) (projects : List String) :
    Cache × List CacheEvent :=
  (cache.Add now key projects,
    [CacheEvent.lock, CacheEvent.writeItems key, CacheEvent.unlock])

/-- The method `Get` with its mutex operations and map accesses, statement by
statement: `Lock`, the lookup `item, ok := cache.items[key]`, then per branch
`Unlock` (miss), `delete` and `Unlock` (stale), or `Unlock` followed by the
lookup in `return cache.items[key].projects, nil` (fresh). -/
def Cache.GetTraced (cache : Cache) (now : Int) (key : String) :
    (Cache × Except String (List String)) × List CacheEvent :=
  match cache.items key with
  | none =>
    ((cache, Except.error ("key not in cache: " ++ key)),
      [CacheEvent.lock, CacheEvent.readItems key, CacheEvent.unlock])
  | some item =>
    if timeSub now item.updated ≥ cache.maxTTL then
      (({ cache with items := fun k => if k = key then none else cache.items k },
          Except.error ("cache appears stale for key: " ++ key)),
        [CacheEvent.lock, CacheEvent.readItems key, CacheEvent.deleteItems key,
          CacheEvent.unlock])
    else
      ((cache, Except.ok item.projects),
        [CacheEvent.lock, CacheEvent.readItems key, CacheEvent.unlock,
          CacheEvent.readItems key])

/-- Whether every access to the item map in a sequence of events happens while
the mutex is held; `held` tells whether it is held at the start. -/
def guardedFrom : Bool → List CacheEvent → Bool
  | _, [] => true
  | _, CacheEvent.lock :: rest => guardedFrom true rest
  | _, CacheEvent.unlock :: rest => guardedFrom false rest
  | held, CacheEvent.readItems _ :: rest => held && guardedFrom held rest
  | held, CacheEvent.writeItems _ :: rest => held && guardedFrom held rest
  | held, CacheEvent.deleteItems _ :: rest => held && guardedFrom held rest

/-- Whether every access to the item map in the events of one call happens
while the mutex is held. -/
def guarded (events : List CacheEvent) : Bool := guardedFrom false events

/-- A cache of `maxTTL` one hour with an entry for `folders/F1` added at time 0. -/
def cacheF1 : Cache := (Cache.Initialize hour).Add 0 "folders/F1" ["P1", "P2"]

/-- Whether the cache holds an entry for `key` that is fresh at time `now`. -/
def Cache.hasFresh (cache : Cache) (now : Int) (key : String) : Bool :=
  match cache.items key with
  | none => false
  | some item => decide (timeSub now item.updated < cache.maxTTL)

/-- The cache has no entry under any key in `S`. -/
def Absent (S : String → Prop) (cache : Cache) : Prop :=
  ∀ k, S k → cache.items k = none

/-- Every node in `S` whose folders can be listed has a listed folder that is
in `S` or is the node `current`: the calls on the nodes of `S` are still
running, each waiting for a folder in `S` or for the call on `current`. -/
def Waits (h : Hierarchy) (S : String → Prop) (current : String) : Prop :=
  ∀ k, S k → ∀ folders, h.listFolders k = Except.ok folders →
    ∃ name ∈ folders, ∃ folderName, (stringsSplit name '/')[1]? = some folderName
      ∧ (S ("folders" ++ "/" ++ folderName) ∨ "folders" ++ "/" ++ folderName = current)

/-- Organization `ORG1` with the folders `F1` (projects `P1`, `P2`) and `F2`,
where the listings under `F2` are denied. -/
def deniedF2 : Hierarchy where
  listFolders := fun parent =>
    if parent = "organizations/ORG1" then Except.ok ["folders/F1", "folders/F2"]
    else if parent = "folders/F1" then Except.ok []
    else Except.error "googleapi: Error 403: permission denied"
  listProjects := fun parent =>
    if parent = "organizations/ORG1" then Except.ok ["P3"]
    else if parent = "folders/F1" then Except.ok ["P1", "P2"]
    else Except.error "googleapi: Error 403: permission denied"

/-- The world after `ORG1` of `deniedF2` has been resolved from the cold cache. -/
def deniedWorld : World :=
  (retrieveResourceChildren deniedF2 secondsClock 3 coldWorld "organizations" "ORG1").1

/-! ## Lemmas on maps -/

theorem mapGet_mapSet {α : Type} (m : List (String × α)) (k id : String) (v : α) :
    mapGet (mapSet m k v) id = if k = id then some v else mapGet m id := by
  induction m with
  | nil => simp [mapSet, mapGet]
  | cons e rest ih =>
    obtain ⟨k0, w⟩ := e
    by_cases h : k0 = k
    · subst h
      by_cases h2 : k0 = id <;> simp [mapSet, mapGet, h2]
    · by_cases h2 : k = id
      · subst h2
        simp [mapSet, mapGet, h, ih]
      · by_cases h3 : k0 = id
        · subst h3
          simp [mapSet, mapGet, h, h2]
        · simp [mapSet, mapGet, h, h2, h3, ih]

theorem mapGet_eq_none_of_not_mem {α : Type} (m : List (String × α)) (id : String)
    (h : id ∉ m.map Prod.fst) : mapGet m id = none := by
  induction m with
  | nil => rfl
  | cons e rest ih =>
    obtain ⟨k0, w⟩ := e
    simp only [List.map_cons, List.mem_cons, not_or] at h
    have hne : ¬ k0 = id := fun h3 => h.1 h3.symm
    simp [mapGet, hne, ih h.2]

/-- Ranging over entries with distinct keys and writing `f v` back under each
key: an entry that was ranged over holds `f` of its value, any other is kept. -/
theorem mapGet_foldl_mapSet (f : Reservation → Reservation)
    (es : List (String × Reservation)) (hnd : (es.map Prod.fst).Nodup)
    (st : State) (id : String) :
    mapGet (es.foldl (fun st entry =>
      ({ Reservations := mapSet st.Reservations entry.1 (f entry.2) } : State)) st).Reservations id
      = match mapGet es id with
        | some r => some (f r)
        | none => mapGet st.Reservations id := by
  induction es generalizing st with
  | nil => simp [mapGet]
  | cons e rest ih =>
    obtain ⟨k0, w⟩ := e
    simp only [List.map_cons, List.nodup_cons] at hnd
    rw [List.foldl_cons, ih hnd.2]
    by_cases h : k0 = id
    · subst h
      simp [mapGet, mapGet_eq_none_of_not_mem rest k0 hnd.1, mapGet_mapSet]
    · simp only [mapGet, h, if_false]
      cases hr : mapGet rest id with
      | some r => rfl
      | none => simp [mapGet_mapSet, h]

theorem mapGet_ComputeUtilization (state : State) (hwf : state.WellFormed)
    (threshold : F64) (id : String) :
    mapGet (state.ComputeUtilization threshold).Reservations id
      = (mapGet state.Reservations id).map (computeReservation threshold) := by
  unfold State.ComputeUtilization
  rw [mapGet_foldl_mapSet (computeReservation threshold) state.Reservations hwf state id]
  cases mapGet state.Reservations id <;> rfl

/-! ## Lemmas on `%.2f` -/

theorem digitChar_toNat (n : Nat) : (digitChar n).toNat = 48 + n % 10 := by
  have h : ∀ k : Fin 10, (Char.ofNat (48 + k.val)).toNat = 48 + k.val := by decide
  exact h ⟨n % 10, Nat.mod_lt _ (by norm_num)⟩

theorem digitChar_isDigit (n : Nat) : (digitChar n).isDigit = true := by
  have h : ∀ k : Fin 10, (Char.ofNat (48 + k.val)).isDigit = true := by decide
  exact h ⟨n % 10, Nat.mod_lt _ (by norm_num)⟩

theorem digitsValue_append_single (cs : List Char) (c : Char) :
    digitsValue (cs ++ [c]) = digitsValue cs * 10 + (c.toNat - 48) := by
  simp [digitsValue, List.foldl_append]

theorem natDigits_isDigit (fuel n : Nat) : ∀ c ∈ natDigits fuel n, c.isDigit = true := by
  induction fuel generalizing n with
  | zero => intro c hc; simp [natDigits] at hc; subst hc; exact digitChar_isDigit n
  | succ k ih =>
    intro c hc
    unfold natDigits at hc
    split at hc
    · simp at hc; subst hc; exact digitChar_isDigit n
    · rcases List.mem_append.1 hc with h | h
      · exact ih _ c h
      · simp at h; subst h; exact digitChar_isDigit n

theorem digitsValue_natDigits (fuel n : Nat) (h : n ≤ fuel) :
    digitsValue (natDigits fuel n) = n := by
  induction fuel generalizing n with
  | zero =>
    have : n = 0 := by omega
    subst this
    decide
  | succ k ih =>
    unfold natDigits
    split
    · rename_i hlt
      simp [digitsValue, digitChar_toNat, Nat.mod_eq_of_lt hlt]
    · rw [digitsValue_append_single, ih (n / 10) (by omega), digitChar_toNat]
      omega

/-! ## Lemmas on `float64` -/

theorem roundHalfEvenDiv_close (num den : Nat) (hden : 0 < den) :
    |((roundHalfEvenDiv num den : ℕ) : ℚ) - (num : ℚ) / (den : ℚ)| ≤ 1 / 2 := by
  have hd : (0 : ℚ) < (den : ℚ) := by exact_mod_cast hden
  have hsplit : (num : ℚ) = (den : ℚ) * ((num / den : ℕ) : ℚ) + ((num % den : ℕ) : ℚ) := by
    exact_mod_cast (Nat.div_add_mod num den).symm
  have hmod : ((num % den : ℕ) : ℚ) < (den : ℚ) := by exact_mod_cast Nat.mod_lt num hden
  have hmod0 : (0 : ℚ) ≤ ((num % den : ℕ) : ℚ) := by positivity
  have hq : (num : ℚ) / (den : ℚ)
      = ((num / den : ℕ) : ℚ) + ((num % den : ℕ) : ℚ) / (den : ℚ) := by
    field_simp
    linarith
  unfold roundHalfEvenDiv
  split
  · rename_i hup
    have hhalf : (den : ℚ) ≤ 2 * ((num % den : ℕ) : ℚ) := by
      rcases hup with h | ⟨h, _⟩
      · exact_mod_cast le_of_lt h
      · exact_mod_cast le_of_eq h.symm
    have h1 : (1 : ℚ) / 2 ≤ ((num % den : ℕ) : ℚ) / (den : ℚ) := by
      rw [le_div_iff₀ hd]
      linarith
    have h2 : ((num % den : ℕ) : ℚ) / (den : ℚ) < 1 := by
      rw [div_lt_one hd]
      exact hmod
    rw [hq, abs_le]
    push_cast
    constructor <;> linarith
  · rename_i hdown
    have hhalf : 2 * ((num % den : ℕ) : ℚ) ≤ (den : ℚ) := by
      have h : 2 * (num % den) ≤ den := by
        by_contra hc
        exact hdown (Or.inl (not_le.1 hc))
      exact_mod_cast h
    have h1 : ((num % den : ℕ) : ℚ) / (den : ℚ) ≤ 1 / 2 := by
      rw [div_le_iff₀ hd]
      linarith
    have h2 : (0 : ℚ) ≤ ((num % den : ℕ) : ℚ) / (den : ℚ) := by positivity
    rw [hq, abs_le]
    constructor <;> linarith

theorem two_zpow_split (e : Int) :
    (2 : ℚ) ^ e = ((2 ^ e.toNat : ℕ) : ℚ) / ((2 ^ (-e).toNat : ℕ) : ℚ) := by
  cases e with
  | ofNat k =>
    have h1 : (Int.ofNat k).toNat = k := rfl
    have h2 : (-(Int.ofNat k)).toNat = 0 := by
      cases k <;> rfl
    rw [h1, h2]
    simp
  | negSucc k =>
    have h1 : (Int.negSucc k).toNat = 0 := rfl
    have h2 : (-(Int.negSucc k)).toNat = k + 1 := rfl
    rw [h1, h2, zpow_negSucc]
    simp

theorem two_pow_pos (k : Nat) : 0 < 2 ^ k := pow_pos (by decide) k

/-- The magnitude of a finite `float64` as a quotient of natural numbers. -/
theorem F64.abs_toRat_fin (neg : Bool) (m : Nat) (e : Int) :
    |(F64.fin neg m e).toRat|
      = ((m * 2 ^ e.toNat : ℕ) : ℚ) / ((2 ^ (-e).toNat : ℕ) : ℚ) := by
  have hpos : (0 : ℚ) ≤ (m : ℚ) * (2 : ℚ) ^ e := by positivity
  have habs : |(F64.fin neg m e).toRat| = (m : ℚ) * (2 : ℚ) ^ e := by
    unfold F64.toRat
    cases neg
    · simp only [Bool.false_eq_true, if_false, one_mul]
      exact abs_of_nonneg hpos
    · simp only [if_true, neg_mul, one_mul, abs_neg]
      exact abs_of_nonneg hpos
  rw [habs, two_zpow_split]
  push_cast
  ring

theorem F64.toRat_fin_pos (m : Nat) (e : Int) :
    (F64.fin false m e).toRat
      = ((m * 2 ^ e.toNat : ℕ) : ℚ) / ((2 ^ (-e).toNat : ℕ) : ℚ) := by
  show (if false = true then -1 else 1) * (m : ℚ) * (2 : ℚ) ^ e = _
  rw [two_zpow_split]
  push_cast
  simp only [Bool.false_eq_true, if_false, one_mul]
  ring

theorem F64.toRat_fin_neg (m : Nat) (e : Int) :
    (F64.fin true m e).toRat
      = -(((m * 2 ^ e.toNat : ℕ) : ℚ) / ((2 ^ (-e).toNat : ℕ) : ℚ)) := by
  show (if true = true then -1 else 1) * (m : ℚ) * (2 : ℚ) ^ e = _
  rw [two_zpow_split]
  push_cast
  simp only [if_true]
  ring

theorem ceil_div_spec (N D : Nat) (hD : 0 < D) :
    (N : ℚ) / (D : ℚ) ≤ ((((N + (D - 1)) / D : ℕ) : ℤ) : ℚ)
      ∧ ∀ z : Int, (N : ℚ) / (D : ℚ) ≤ (z : ℚ) → (((N + (D - 1)) / D : ℕ) : ℤ) ≤ z := by
  have hDq : (0 : ℚ) < (D : ℚ) := by exact_mod_cast hD
  constructor
  · rw [div_le_iff₀ hDq]
    have h : N ≤ (N + (D - 1)) / D * D := by
      have h1 := Nat.div_add_mod (N + (D - 1)) D
      have h2 := Nat.mod_lt (N + (D - 1)) hD
      have h3 : D * ((N + (D - 1)) / D) = (N + (D - 1)) / D * D := Nat.mul_comm _ _
      omega
    exact_mod_cast h
  · intro z hz
    have hnn : (0 : ℚ) ≤ (N : ℚ) / (D : ℚ) := by positivity
    have hz0i : 0 ≤ z := by exact_mod_cast le_trans hnn hz
    obtain ⟨w, hw⟩ := Int.eq_ofNat_of_zero_le hz0i
    subst hw
    rw [div_le_iff₀ hDq] at hz
    have hz3 : N ≤ w * D := by exact_mod_cast hz
    have hle : (N + (D - 1)) / D ≤ w := by
      have h4 : N + (D - 1) < (w + 1) * D := by
        have : (w + 1) * D = w * D + D := by ring
        omega
      have := (Nat.div_lt_iff_lt_mul hD).2 h4
      omega
    exact_mod_cast hle

theorem neg_floor_div_spec (N D : Nat) (hD : 0 < D) :
    -((N : ℚ) / (D : ℚ)) ≤ ((-(((N / D : ℕ) : ℤ)) : ℤ) : ℚ)
      ∧ ∀ z : Int, -((N : ℚ) / (D : ℚ)) ≤ (z : ℚ) → -(((N / D : ℕ) : ℤ)) ≤ z := by
  have hDq : (0 : ℚ) < (D : ℚ) := by exact_mod_cast hD
  constructor
  · push_cast
    rw [neg_le_neg_iff, le_div_iff₀ hDq]
    exact_mod_cast Nat.div_mul_le_self N D
  · intro z hz
    rw [neg_le] at hz ⊢
    by_cases hz0 : 0 ≤ -z
    · obtain ⟨w, hw⟩ := Int.eq_ofNat_of_zero_le hz0
      have hz2 : ((w : ℕ) : ℚ) ≤ (N : ℚ) / (D : ℚ) := by
        have hc : ((-z : Int) : ℚ) = ((w : ℕ) : ℚ) := by rw [hw]; simp
        rw [← hc]
        push_cast
        exact hz
      rw [le_div_iff₀ hDq] at hz2
      have hz3 : w * D ≤ N := by exact_mod_cast hz2
      rw [hw]
      exact_mod_cast (Nat.le_div_iff_mul_le hD).2 hz3
    · exact le_trans (le_of_lt (not_le.1 hz0)) (Int.ofNat_nonneg _)

/-- The ceiling of a finite `float64` is the least integer not below it. -/
theorem F64.ceil_spec (neg : Bool) (m : Nat) (e : Int) :
    (F64.fin neg m e).toRat ≤ ((F64.fin neg m e).ceil : ℚ)
      ∧ ∀ z : Int, (F64.fin neg m e).toRat ≤ (z : ℚ) → (F64.fin neg m e).ceil ≤ z := by
  have hD : 0 < 2 ^ (-e).toNat := two_pow_pos _
  cases neg with
  | true =>
    rw [F64.toRat_fin_neg]
    have hc : (F64.fin true m e).ceil
        = -(((m * 2 ^ e.toNat / 2 ^ (-e).toNat : ℕ) : ℤ)) := by
      simp only [F64.ceil, if_true]
    rw [hc]
    exact neg_floor_div_spec _ _ hD
  | false =>
    rw [F64.toRat_fin_pos]
    have hc : (F64.fin false m e).ceil
        = (((m * 2 ^ e.toNat + (2 ^ (-e).toNat - 1)) / 2 ^ (-e).toNat : ℕ) : ℤ) := by
      simp only [F64.ceil, Bool.false_eq_true, if_false]
    rw [hc]
    exact ceil_div_spec _ _ hD

theorem F64.ge_of_eq (x y : F64) (h : F64.eq x y = true) : F64.ge x y = true := by
  unfold F64.eq at h
  unfold F64.ge
  split at h <;> simp_all

theorem F64.not_ge_of_lt (x y : F64) (h : F64.lt x y = true) : F64.ge x y = false := by
  unfold F64.lt at h
  unfold F64.ge
  split at h <;> simp_all

/-- The string `formatFixed2 neg m e` is a sign, a run of digits, a point and
two digits, and the number it denotes is within half a hundredth of the
magnitude of the value. -/
theorem formatFixed2_spec (neg : Bool) (m : Nat) (e : Int) :
    ∃ intPart d1 d2,
      (formatFixed2 neg m e).data = (if neg then ['-'] else []) ++ intPart ++ ['.', d1, d2]
      ∧ (∀ c ∈ intPart, c.isDigit = true) ∧ d1.isDigit = true ∧ d2.isDigit = true
      ∧ abs (((digitsValue intPart : ℚ) + (digitsValue [d1, d2] : ℚ) / 100)
            - abs (F64.fin neg m e).toRat) ≤ 1 / 200 := by
  have hD : 0 < 2 ^ (-e).toNat := two_pow_pos _
  have hDq : (0 : ℚ) < ((2 ^ (-e).toNat : ℕ) : ℚ) := by exact_mod_cast hD
  refine ⟨natDigits (hundredths m e / 100) (hundredths m e / 100),
    digitChar (hundredths m e / 10), digitChar (hundredths m e), rfl, natDigits_isDigit _ _,
    digitChar_isDigit _, digitChar_isDigit _, ?_⟩
  have hv : digitsValue [digitChar (hundredths m e / 10), digitChar (hundredths m e)]
      = hundredths m e % 100 := by
    simp only [digitsValue, List.foldl_cons, List.foldl_nil, digitChar_toNat]
    omega
  rw [digitsValue_natDigits _ _ (le_refl _), hv]
  have hsplit : ((hundredths m e / 100 : ℕ) : ℚ) + ((hundredths m e % 100 : ℕ) : ℚ) / 100
      = (hundredths m e : ℚ) / 100 := by
    have h := Nat.div_add_mod (hundredths m e) 100
    have h2 : ((100 * (hundredths m e / 100) + hundredths m e % 100 : ℕ) : ℚ)
        = (hundredths m e : ℚ) := by rw [h]
    push_cast at h2
    linarith
  rw [hsplit, F64.abs_toRat_fin]
  have hclose := roundHalfEvenDiv_close (m * 100 * 2 ^ e.toNat) (2 ^ (-e).toNat) hD
  have hscale : ((m * 100 * 2 ^ e.toNat : ℕ) : ℚ) / ((2 ^ (-e).toNat : ℕ) : ℚ)
      = 100 * (((m * 2 ^ e.toNat : ℕ) : ℚ) / ((2 ^ (-e).toNat : ℕ) : ℚ)) := by
    push_cast
    ring
  rw [hscale] at hclose
  have hh : (hundredths m e : ℚ)
      = ((roundHalfEvenDiv (m * 100 * 2 ^ e.toNat) (2 ^ (-e).toNat) : ℕ) : ℚ) := rfl
  rw [hh]
  rw [abs_le] at hclose ⊢
  constructor <;> linarith [hclose.1, hclose.2]

/-! ## Lemmas on `ComputeUtilization` -/

theorem foldl_usage (jobs : List Job) (total : F64) :
    jobs.foldl (fun total job => F64.add total job.Usage) total
      = (usages jobs).foldl F64.add total := by
  unfold usages
  rw [List.foldl_map]

theorem computeReservation_TotalUsage (threshold : F64) (r : Reservation) :
    (computeReservation threshold r).TotalUsage = (usages r.Jobs).foldl F64.add r.TotalUsage := by
  unfold computeReservation
  simp only [foldl_usage]
  split <;> rfl

theorem computeReservation_Jobs (threshold : F64) (r : Reservation) :
    (computeReservation threshold r).Jobs = r.Jobs := by
  unfold computeReservation
  simp only
  split <;> rfl

theorem computeReservation_NumJobs (threshold : F64) (r : Reservation) :
    (computeReservation threshold r).NumJobs = (r.Jobs.length : Int) := by
  unfold computeReservation
  simp only
  split <;> rfl

theorem computeReservation_Slots (threshold : F64) (r : Reservation) :
    (computeReservation threshold r).Slots = r.Slots := by
  unfold computeReservation
  simp only
  split <;> rfl

theorem computeReservation_ThresholdBreached (threshold : F64) (r : Reservation) :
    (computeReservation threshold r).ThresholdBreached
      = (F64.ge (F64.div ((usages r.Jobs).foldl F64.add r.TotalUsage) r.Slots) threshold
          || r.ThresholdBreached) := by
  unfold computeReservation
  simp only [foldl_usage]
  split <;> rename_i h <;> simp [h]

theorem computeReservation_TotalUsageCeiling (threshold : F64) (r : Reservation) :
    (computeReservation threshold r).TotalUsageCeiling
      = F64.ceilToInt ((usages r.Jobs).foldl F64.add r.TotalUsage) := by
  unfold computeReservation
  simp only [foldl_usage]
  split <;> rfl

theorem computeReservation_Percentage (threshold : F64) (r : Reservation) :
    (computeReservation threshold r).Percentage
      = F64.format2 (F64.mul (F64.div ((usages r.Jobs).foldl F64.add r.TotalUsage) r.Slots)
          (F64.ofInt 100)) := by
  unfold computeReservation
  simp only [foldl_usage]

/-! ## The state before `ComputeUtilization` -/

theorem mem_keys_mapSet {α : Type} (m : List (String × α)) (k : String) (v : α) (x : String) :
    x ∈ (mapSet m k v).map Prod.fst ↔ x ∈ m.map Prod.fst ∨ x = k := by
  induction m with
  | nil => simp [mapSet]
  | cons entry rest ih =>
    obtain ⟨k0, w⟩ := entry
    by_cases h : k0 = k
    · subst h
      simp only [mapSet, if_true, List.map_cons, List.mem_cons]
      constructor
      · intro hx
        exact Or.inl hx
      · rintro (hx | hx)
        · exact hx
        · exact Or.inl hx
    · simp only [mapSet, h, if_false, List.map_cons, List.mem_cons, ih]
      constructor
      · rintro (hx | hx | hx)
        · exact Or.inl (Or.inl hx)
        · exact Or.inl (Or.inr hx)
        · exact Or.inr hx
      · rintro ((hx | hx) | hx)
        · exact Or.inl hx
        · exact Or.inr (Or.inl hx)
        · exact Or.inr (Or.inr hx)

theorem nodup_keys_mapSet {α : Type} (m : List (String × α)) (k : String) (v : α)
    (h : (m.map Prod.fst).Nodup) : ((mapSet m k v).map Prod.fst).Nodup := by
  induction m with
  | nil => simp [mapSet]
  | cons entry rest ih =>
    obtain ⟨k0, w⟩ := entry
    simp only [List.map_cons, List.nodup_cons] at h
    by_cases hk : k0 = k
    · subst hk
      simp only [mapSet, if_true, List.map_cons, List.nodup_cons]
      exact h
    · simp only [mapSet, hk, if_false, List.map_cons, List.nodup_cons, mem_keys_mapSet]
      refine ⟨?_, ih h.2⟩
      rintro (hx | hx)
      · exact h.1 hx
      · exact hx

theorem freshReservation_underived (name location : String) (slots : F64) :
    (freshReservation name location slots).Underived :=
  ⟨rfl, rfl, rfl, rfl, rfl⟩

/-- Writing a reservation with untouched derived fields into a collected state
gives a collected state. -/
theorem Collected_mapSet (state : State) (hc : state.Collected) (id : String)
    (r : Reservation) (hr : r.Underived) :
    State.Collected { Reservations := mapSet state.Reservations id r } := by
  refine ⟨nodup_keys_mapSet _ _ _ hc.1, ?_⟩
  intro k r0 hget
  simp only [mapGet_mapSet] at hget
  by_cases hk : id = k
  · rw [if_pos hk] at hget
    cases hget
    exact hr
  · rw [if_neg hk] at hget
    exact hc.2 k r0 hget

theorem Collected_empty : State.Collected { Reservations := [] } :=
  ⟨List.nodup_nil, fun _ _ h => by cases h⟩

/-- The state that `RetrieveReservations` builds from freshly created
reservations is a collected state. -/
theorem Collected_RetrieveReservations (received : List Reservation)
    (hfresh : ∀ r ∈ received, ∃ name location slots, r = freshReservation name location slots) :
    (State.RetrieveReservations received).Collected := by
  unfold State.RetrieveReservations
  have hgen : ∀ (rs : List Reservation) (st : State), st.Collected →
      (∀ r ∈ rs, r.Underived) →
      (rs.foldl (fun st reservation =>
        ({ Reservations := mapSet st.Reservations
            (reservation.Location ++ "." ++ reservation.Name) reservation } : State))
        st).Collected := by
    intro rs
    induction rs with
    | nil => intro st hst _; exact hst
    | cons r rest ih =>
      intro st hst hall
      rw [List.foldl_cons]
      exact ih _ (Collected_mapSet st hst _ r (hall r (List.mem_cons_self _ _)))
        (fun x hx => hall x (List.mem_cons_of_mem _ hx))
  refine hgen received _ Collected_empty ?_
  intro r hr
  obtain ⟨name, location, slots, rfl⟩ := hfresh r hr
  exact freshReservation_underived name location slots

theorem mapGet_of_mem {α : Type} (m : List (String × α)) (h : (m.map Prod.fst).Nodup)
    (k : String) (v : α) (hmem : (k, v) ∈ m) : mapGet m k = some v := by
  induction m with
  | nil => cases hmem
  | cons entry rest ih =>
    obtain ⟨k0, w⟩ := entry
    simp only [List.map_cons, List.nodup_cons] at h
    rcases List.mem_cons.1 hmem with heq | hrest
    · cases heq
      simp [mapGet]
    · have hne : ¬ k0 = k := by
        intro hk
        apply h.1
        rw [hk]
        exact List.mem_map.2 ⟨(k, v), hrest, rfl⟩
      simp only [mapGet, hne, if_false]
      exact ih h.2 hrest

/-- Appending the received jobs to the reservations of a collected state gives
a collected state. -/
theorem Collected_RetrieveJobs (received : String → List Job) (state : State)
    (hc : state.Collected) : (State.RetrieveJobs received state).Collected := by
  unfold State.RetrieveJobs
  have hgen : ∀ (es : List (String × Reservation)) (st : State), st.Collected →
      (∀ entry ∈ es, entry.2.Underived) →
      (es.foldl (fun st entry =>
        ({ Reservations := mapSet st.Reservations (entry.2.Location ++ "." ++ entry.2.Name)
            { entry.2 with Jobs := entry.2.Jobs ++ received entry.1 } } : State))
        st).Collected := by
    intro es
    induction es with
    | nil => intro st hst _; exact hst
    | cons entry rest ih =>
      intro st hst hall
      rw [List.foldl_cons]
      refine ih _ (Collected_mapSet st hst _ _ ?_)
        (fun x hx => hall x (List.mem_cons_of_mem _ hx))
      exact hall entry (List.mem_cons_self _ _)
  refine hgen state.Reservations state hc ?_
  intro entry hmem
  exact hc.2 entry.1 entry.2 (mapGet_of_mem _ hc.1 entry.1 entry.2 hmem)

theorem scenarioB_wellFormed : scenarioB.WellFormed := by
  simp [State.WellFormed, scenarioB]

theorem scenarioB_get : mapGet scenarioB.Reservations "US.R2" = some scenarioBReservation := by
  simp [scenarioB, mapGet]

theorem Collected_singleton (id : String) (r : Reservation) (hr : r.Underived) :
    State.Collected { Reservations := [(id, r)] } := by
  refine ⟨by simp [State.WellFormed], ?_⟩
  intro k r0 hget
  simp only [mapGet] at hget
  split at hget
  · cases hget
    exact hr
  · cases hget

theorem scenarioB_collected : scenarioB.Collected :=
  Collected_singleton _ _ ⟨rfl, rfl, rfl, rfl, rfl⟩

/-! ## Utilization totals -/

/-- C1: for every state as the stages before `ComputeUtilization` build it and
every reservation in it, after `ComputeUtilization` the reservation keeps its
job list, `NumJobs` is the length of that list and `TotalUsage` is the sum of
the usages of exactly the jobs in the list, added in `float64` in the order of
the list starting from zero. -/
theorem ComputeUtilization_totals (state : State) (hc : state.Collected) (threshold : F64)
    (id : String) (r : Reservation) (hr : mapGet state.Reservations id = some r) :
    ∃ r', mapGet (state.ComputeUtilization threshold).Reservations id = some r'
      ∧ r'.Jobs = r.Jobs
      ∧ r'.NumJobs = (r'.Jobs.length : Int)
      ∧ r'.TotalUsage = float64Sum (usages r'.Jobs) := by
  refine ⟨computeReservation threshold r, ?_, ?_, ?_, ?_⟩
  · rw [mapGet_ComputeUtilization state hc.1, hr]
    rfl
  · exact computeReservation_Jobs threshold r
  · rw [computeReservation_NumJobs, computeReservation_Jobs]
  · rw [computeReservation_TotalUsage, computeReservation_Jobs, (hc.2 id r hr).2.1]
    rfl

set_option maxRecDepth 100000 in
theorem scenarioB_sum : float64Sum (usages scenarioBReservation.Jobs) = F64.ofInt 7 := by
  decide

/-- Witness of `ComputeUtilization_totals`: Scenario B, whose total is the
`float64` sum 4 + 3 = 7 of its two jobs. -/
theorem ComputeUtilization_totals_witness :
    scenarioB.Collected ∧ mapGet scenarioB.Reservations "US.R2" = some scenarioBReservation
      ∧ float64Sum (usages scenarioBReservation.Jobs) = F64.ofInt 7
      ∧ ∃ r', mapGet (scenarioB.ComputeUtilization sixTenths).Reservations "US.R2" = some r'
        ∧ r'.Jobs = scenarioBReservation.Jobs
        ∧ r'.NumJobs = (r'.Jobs.length : Int)
        ∧ r'.TotalUsage = float64Sum (usages r'.Jobs) :=
  ⟨scenarioB_collected, scenarioB_get, scenarioB_sum,
    ComputeUtilization_totals scenarioB scenarioB_collected sixTenths "US.R2"
      scenarioBReservation scenarioB_get⟩

/-! ## The breach flag -/

/-- C2: for every reservation of a state as the stages before
`ComputeUtilization` build it and every threshold, after `ComputeUtilization`
the flag `ThresholdBreached` is true if and only if the utilization, the
`float64` quotient of the sum of the job usages and `Slots`, is `>=` the
threshold: a utilization equal to the threshold is marked breached, and a
utilization below the threshold is marked not breached. -/
theorem ComputeUtilization_breach (state : State) (hc : state.Collected) (threshold : F64)
    (id : String) (r : Reservation) (hr : mapGet state.Reservations id = some r) :
    ∃ r', mapGet (state.ComputeUtilization threshold).Reservations id = some r'
      ∧ (r'.ThresholdBreached = true
          ↔ F64.ge (F64.div (float64Sum (usages r.Jobs)) r.Slots) threshold = true)
      ∧ (F64.eq (F64.div (float64Sum (usages r.Jobs)) r.Slots) threshold = true →
          r'.ThresholdBreached = true)
      ∧ (F64.lt (F64.div (float64Sum (usages r.Jobs)) r.Slots) threshold = true →
          r'.ThresholdBreached = false) := by
  have hflag : (computeReservation threshold r).ThresholdBreached
      = F64.ge (F64.div (float64Sum (usages r.Jobs)) r.Slots) threshold := by
    rw [computeReservation_ThresholdBreached, (hc.2 id r hr).2.1, (hc.2 id r hr).2.2.2.1,
      Bool.or_false]
    rfl
  refine ⟨computeReservation threshold r, ?_, ?_, ?_, ?_⟩
  · rw [mapGet_ComputeUtilization state hc.1, hr]
    rfl
  · rw [hflag]
  · intro heq
    rw [hflag]
    exact F64.ge_of_eq _ _ heq
  · intro hlt
    rw [hflag]
    exact F64.not_ge_of_lt _ _ hlt

theorem tenTenths_collected : tenTenths.Collected :=
  Collected_singleton _ _ ⟨rfl, rfl, rfl, rfl, rfl⟩

set_option maxRecDepth 100000 in
theorem sevenTenths_eq :
    F64.eq (F64.div (float64Sum (usages scenarioBReservation.Jobs)) scenarioBReservation.Slots)
      sevenTenths = true := by
  decide

set_option maxRecDepth 100000 in
theorem tenTenths_lt :
    F64.lt (F64.div (float64Sum (usages tenTenthsJobs)) (F64.ofInt 1)) (F64.ofInt 1) = true := by
  decide

/-- Witness of `ComputeUtilization_breach`: Scenario B at the threshold 7/10,
which its utilization equals, is breached; ten jobs of usage 0.1 on one slot,
whose `float64` sum is below 1, are not breached at the threshold 1. -/
theorem ComputeUtilization_breach_witness :
    scenarioB.Collected ∧ tenTenths.Collected
      ∧ (∃ r', mapGet (scenarioB.ComputeUtilization sevenTenths).Reservations "US.R2" = some r'
          ∧ r'.ThresholdBreached = true)
      ∧ (∃ r', mapGet (tenTenths.ComputeUtilization (F64.ofInt 1)).Reservations "US.R4"
            = some r'
          ∧ r'.ThresholdBreached = false) := by
  refine ⟨scenarioB_collected, tenTenths_collected, ?_, ?_⟩
  · obtain ⟨r', h1, _, h3, _⟩ := ComputeUtilization_breach scenarioB scenarioB_collected
      sevenTenths "US.R2" scenarioBReservation scenarioB_get
    exact ⟨r', h1, h3 sevenTenths_eq⟩
  · obtain ⟨r', h1, _, _, h4⟩ := ComputeUtilization_breach tenTenths tenTenths_collected
      (F64.ofInt 1) "US.R4" _ (by simp [tenTenths, mapGet]; rfl)
    exact ⟨r', h1, h4 tenTenths_lt⟩

/-! ## Scenario B -/

set_option maxRecDepth 100000 in
theorem scenarioB_percentage :
    F64.format2 (F64.mul (F64.div (F64.ofInt 7) scenarioBReservation.Slots) (F64.ofInt 100))
      = "70.00" := by
  decide

set_option maxRecDepth 100000 in
theorem scenarioB_ceiling : F64.ceilToInt (F64.ofInt 7) = 7 := by
  decide

set_option maxRecDepth 100000 in
theorem scenarioB_breached :
    F64.ge (F64.div (F64.ofInt 7) scenarioBReservation.Slots) sixTenths = true
      ∧ F64.ge (F64.div (F64.ofInt 7) scenarioBReservation.Slots) eightTenths = false := by
  decide

theorem scenarioB_result (threshold : F64) :
    ∃ r', mapGet (scenarioB.ComputeUtilization threshold).Reservations "US.R2" = some r'
      ∧ r'.TotalUsage = F64.ofInt 7 ∧ r'.Percentage = "70.00" ∧ r'.TotalUsageCeiling = 7
      ∧ r'.ThresholdBreached
          = F64.ge (F64.div (F64.ofInt 7) scenarioBReservation.Slots) threshold := by
  have hsum : (usages scenarioBReservation.Jobs).foldl F64.add scenarioBReservation.TotalUsage
      = F64.ofInt 7 := scenarioB_sum
  refine ⟨computeReservation threshold scenarioBReservation, ?_, ?_, ?_, ?_, ?_⟩
  · rw [mapGet_ComputeUtilization _ scenarioB_wellFormed, scenarioB_get]
    rfl
  · rw [computeReservation_TotalUsage, hsum]
  · rw [computeReservation_Percentage, hsum, scenarioB_percentage]
  · rw [computeReservation_TotalUsageCeiling, hsum, scenarioB_ceiling]
  · rw [computeReservation_ThresholdBreached, hsum]
    have hflag : scenarioBReservation.ThresholdBreached = false := rfl
    rw [hflag, Bool.or_false]

/-- C3: Scenario B.  For the freshly discovered reservation with 10 slots whose
job list holds two jobs of usage 4 and 3, `ComputeUtilization` yields
`TotalUsage` 7, `Percentage` "70.00" and `TotalUsageCeiling` 7; the flag
`ThresholdBreached` is true at threshold 0.6 and false at threshold 0.8. -/
theorem scenarioB_utilization :
    scenarioBReservation.Slots = F64.ofInt 10
      ∧ usages scenarioBReservation.Jobs = [F64.ofInt 4, F64.ofInt 3]
      ∧ scenarioBReservation.TotalUsage = F64.zero
      ∧ scenarioBReservation.ThresholdBreached = false
      ∧ (∃ r', mapGet (scenarioB.ComputeUtilization sixTenths).Reservations "US.R2" = some r'
          ∧ r'.TotalUsage = F64.ofInt 7 ∧ r'.Percentage = "70.00" ∧ r'.TotalUsageCeiling = 7
          ∧ r'.ThresholdBreached = true)
      ∧ (∃ r', mapGet (scenarioB.ComputeUtilization eightTenths).Reservations "US.R2" = some r'
          ∧ r'.TotalUsage = F64.ofInt 7 ∧ r'.Percentage = "70.00" ∧ r'.TotalUsageCeiling = 7
          ∧ r'.ThresholdBreached = false) := by
  refine ⟨rfl, rfl, rfl, rfl, ?_, ?_⟩
  · obtain ⟨r', h1, h2, h3, h4, h5⟩ := scenarioB_result sixTenths
    exact ⟨r', h1, h2, h3, h4, h5.trans scenarioB_breached.1⟩
  · obtain ⟨r', h1, h2, h3, h4, h5⟩ := scenarioB_result eightTenths
    exact ⟨r', h1, h2, h3, h4, h5.trans scenarioB_breached.2⟩

/-! ## Percentage and ceiling -/

theorem F64.ceilToInt_spec (x : F64) (hfin : x.isFinite = true)
    (hlo : -(2 : ℚ) ^ 63 - 1 < x.toRat) (hhi : x.toRat ≤ (2 : ℚ) ^ 63 - 1) :
    x.toRat ≤ (x.ceilToInt : ℚ) ∧ ∀ z : Int, x.toRat ≤ (z : ℚ) → x.ceilToInt ≤ z := by
  cases x with
  | inf neg => cases hfin
  | nan => cases hfin
  | fin neg m e =>
    obtain ⟨h1, h2⟩ := F64.ceil_spec neg m e
    have hupper : (F64.fin neg m e).ceil < 2 ^ 63 := by
      have h := h2 (2 ^ 63 - 1) (by push_cast; linarith)
      omega
    have hlower : -(2 ^ 63 : Int) ≤ (F64.fin neg m e).ceil := by
      by_contra hcon
      have hle : (F64.fin neg m e).ceil ≤ -(2 ^ 63 : Int) - 1 := by omega
      have hq : ((F64.fin neg m e).ceil : ℚ) ≤ -(2 : ℚ) ^ 63 - 1 := by exact_mod_cast hle
      linarith
    have hc : (F64.fin neg m e).ceilToInt = (F64.fin neg m e).ceil := by
      unfold F64.ceilToInt
      rw [if_pos ⟨rfl, hlower, hupper⟩]
    rw [hc]
    exact ⟨h1, h2⟩

/-- C4, as the code has it: for every reservation, after `ComputeUtilization`
the `Percentage` field is the `%.2f` format of the `float64` product of the
utilization (total usage ÷ Slots, a `float64` quotient) and 100; when that
product is finite the string is a sign for a negative value, digits, a point
and exactly two digits, denoting the product to the nearest hundredth; and
when the total usage is finite and lies in the range of `int64`,
`TotalUsageCeiling` is the smallest integer greater than or equal to the total
usage. -/
theorem ComputeUtilization_percentage_ceiling (state : State) (hwf : state.WellFormed)
    (threshold : F64) (id : String) (r : Reservation)
    (hr : mapGet state.Reservations id = some r) :
    ∃ r', mapGet (state.ComputeUtilization threshold).Reservations id = some r'
      ∧ r'.Percentage = F64.format2 (F64.mul (F64.div r'.TotalUsage r'.Slots) (F64.ofInt 100))
      ∧ (∀ neg m e,
          F64.mul (F64.div r'.TotalUsage r'.Slots) (F64.ofInt 100) = F64.fin neg m e →
          ∃ intPart d1 d2,
            r'.Percentage.data = (if neg then ['-'] else []) ++ intPart ++ ['.', d1, d2]
            ∧ (∀ c ∈ intPart, c.isDigit = true) ∧ d1.isDigit = true ∧ d2.isDigit = true
            ∧ abs (((digitsValue intPart : ℚ) + (digitsValue [d1, d2] : ℚ) / 100)
                  - abs (F64.fin neg m e).toRat) ≤ 1 / 200)
      ∧ (r'.TotalUsage.isFinite = true → -(2 : ℚ) ^ 63 - 1 < r'.TotalUsage.toRat →
          r'.TotalUsage.toRat ≤ (2 : ℚ) ^ 63 - 1 →
          r'.TotalUsage.toRat ≤ (r'.TotalUsageCeiling : ℚ)
          ∧ ∀ z : Int, r'.TotalUsage.toRat ≤ (z : ℚ) → r'.TotalUsageCeiling ≤ z) := by
  have hp : (computeReservation threshold r).Percentage
      = F64.format2 (F64.mul (F64.div (computeReservation threshold r).TotalUsage
          (computeReservation threshold r).Slots) (F64.ofInt 100)) := by
    rw [computeReservation_Percentage, computeReservation_TotalUsage, computeReservation_Slots]
  refine ⟨computeReservation threshold r, ?_, hp, ?_, ?_⟩
  · rw [mapGet_ComputeUtilization state hwf, hr]
    rfl
  · intro neg m e hfin
    rw [hp, hfin]
    exact formatFixed2_spec neg m e
  · intro hfin hlo hhi
    have hc : (computeReservation threshold r).TotalUsageCeiling
        = F64.ceilToInt (computeReservation threshold r).TotalUsage := by
      rw [computeReservation_TotalUsageCeiling, computeReservation_TotalUsage]
    rw [hc]
    exact F64.ceilToInt_spec _ hfin hlo hhi

/-- Witness of `ComputeUtilization_percentage_ceiling`: Scenario B, whose
percentage is "70.00" and whose total usage 7 has ceiling 7. -/
theorem ComputeUtilization_percentage_ceiling_witness :
    scenarioB.WellFormed ∧ mapGet scenarioB.Reservations "US.R2" = some scenarioBReservation
      ∧ ∃ r', mapGet (scenarioB.ComputeUtilization eightTenths).Reservations "US.R2" = some r'
          ∧ r'.Percentage
              = F64.format2 (F64.mul (F64.div r'.TotalUsage r'.Slots) (F64.ofInt 100)) := by
  obtain ⟨r', h1, h2, _, _⟩ :=
    ComputeUtilization_percentage_ceiling scenarioB scenarioB_wellFormed eightTenths "US.R2"
      scenarioBReservation scenarioB_get
  exact ⟨scenarioB_wellFormed, scenarioB_get, r', h1, h2⟩

set_option maxRecDepth 100000 in
theorem scenarioB_sevenHundred : F64.format2 (F64.mul (F64.ofInt 7) (F64.ofInt 100)) = "700.00" := by
  decide

set_option maxRecDepth 100000 in
theorem zeroSlots_computed :
    (computeReservation eightTenths (freshReservation "R0" "US" (F64.ofInt 0))).Percentage = "NaN"
      ∧ F64.format2 (F64.mul
          (computeReservation eightTenths (freshReservation "R0" "US" (F64.ofInt 0))).TotalUsage
          (F64.ofInt 100)) = "0.00" := by
  decide

set_option maxRecDepth 100000 in
theorem hugeUsage_computed (r : Reservation)
    (h : mapGet hugeUsage.Reservations "US.R5" = some r) :
    (computeReservation eightTenths r).TotalUsage = F64.fin false (2 ^ 52) 11
      ∧ (computeReservation eightTenths r).TotalUsageCeiling = -(2 ^ 63) := by
  have hr : some r = mapGet hugeUsage.Reservations "US.R5" := h.symm
  simp only [hugeUsage, mapGet, if_true, Option.some.injEq] at hr
  subst hr
  decide

/-- C4 fails as stated: in Scenario B the total usage is 7, so that total
usage × 100 formatted to two decimals is "700.00", but `Percentage` is "70.00";
for a fresh reservation with 0 slots and no jobs total usage × 100 is "0.00"
but `Percentage` is "NaN"; and for one job of usage 2^63 on one slot the total
usage is 2^63 but `TotalUsageCeiling` is the least `int64`, below it.  All
three states are as the stages before `ComputeUtilization` build them. -/
theorem ComputeUtilization_percentage_counterexample :
    scenarioB.Collected ∧ zeroSlots.Collected ∧ hugeUsage.Collected
      ∧ (∃ r', mapGet (scenarioB.ComputeUtilization eightTenths).Reservations "US.R2" = some r'
        ∧ r'.Percentage = "70.00"
        ∧ F64.format2 (F64.mul r'.TotalUsage (F64.ofInt 100)) = "700.00"
        ∧ r'.Percentage ≠ F64.format2 (F64.mul r'.TotalUsage (F64.ofInt 100)))
      ∧ (∃ r', mapGet (zeroSlots.ComputeUtilization eightTenths).Reservations "US.R0" = some r'
        ∧ r'.Percentage = "NaN"
        ∧ F64.format2 (F64.mul r'.TotalUsage (F64.ofInt 100)) = "0.00"
        ∧ r'.Percentage ≠ F64.format2 (F64.mul r'.TotalUsage (F64.ofInt 100)))
      ∧ (∃ r', mapGet (hugeUsage.ComputeUtilization eightTenths).Reservations "US.R5" = some r'
        ∧ r'.TotalUsage.isFinite = true ∧ r'.TotalUsage.toRat = 2 ^ 63
        ∧ r'.TotalUsageCeiling = -(2 ^ 63)
        ∧ ¬ (r'.TotalUsage.toRat ≤ (r'.TotalUsageCeiling : ℚ))) := by
  have hz : zeroSlots.Collected := Collected_singleton _ _ ⟨rfl, rfl, rfl, rfl, rfl⟩
  have hh : hugeUsage.Collected := Collected_singleton _ _ ⟨rfl, rfl, rfl, rfl, rfl⟩
  refine ⟨scenarioB_collected, hz, hh, ?_, ?_, ?_⟩
  · obtain ⟨r', h1, h2, h3, _, _⟩ := scenarioB_result eightTenths
    have h700 : F64.format2 (F64.mul r'.TotalUsage (F64.ofInt 100)) = "700.00" := by
      rw [h2, scenarioB_sevenHundred]
    refine ⟨r', h1, h3, h700, ?_⟩
    rw [h3, h700]
    decide
  · refine ⟨computeReservation eightTenths (freshReservation "R0" "US" (F64.ofInt 0)), ?_,
      zeroSlots_computed.1, zeroSlots_computed.2, ?_⟩
    · rw [mapGet_ComputeUtilization _ hz.1]
      simp [zeroSlots, mapGet]
    · rw [zeroSlots_computed.1, zeroSlots_computed.2]
      decide
  · have hget : ∃ r, mapGet hugeUsage.Reservations "US.R5" = some r := by
      simp [hugeUsage, mapGet]
    obtain ⟨r, hr⟩ := hget
    obtain ⟨ht, hc⟩ := hugeUsage_computed r hr
    have hrat : (F64.fin false (2 ^ 52) 11).toRat = 2 ^ 63 := by
      have h11 : (11 : Int).toNat = 11 := rfl
      have hn : (-11 : Int).toNat = 0 := rfl
      rw [F64.toRat_fin_pos, h11, hn]
      norm_num
    refine ⟨computeReservation eightTenths r, ?_, ?_, ?_, hc, ?_⟩
    · rw [mapGet_ComputeUtilization _ hh.1, hr]
      rfl
    · rw [ht]
      rfl
    · rw [ht, hrat]
    · rw [ht, hrat, hc]
      norm_num

/-! ## Order of the jobs -/

/-- C13, as the code has it: for every reservation of a state as the stages
before `ComputeUtilization` build it and every permutation of its `Jobs` list,
`ComputeUtilization` computes the same `NumJobs`, the length of the list; its
`TotalUsage` is the `float64` sum of the usages added in the order of the list,
and whenever that sum is the same for the two orders, `TotalUsage`,
`TotalUsageCeiling`, `ThresholdBreached` and `Percentage` are the same as for
the original order. -/
theorem ComputeUtilization_perm (state state2 : State) (hc : state.Collected)
    (hc2 : state2.Collected) (threshold : F64) (id : String) (r : Reservation)
    (jobs2 : List Job) (hr : mapGet state.Reservations id = some r)
    (hr2 : mapGet state2.Reservations id = some { r with Jobs := jobs2 })
    (hperm : jobs2.Perm r.Jobs) :
    ∃ r1 r2, mapGet (state.ComputeUtilization threshold).Reservations id = some r1
      ∧ mapGet (state2.ComputeUtilization threshold).Reservations id = some r2
      ∧ r1.NumJobs = (r.Jobs.length : Int) ∧ r2.NumJobs = r1.NumJobs
      ∧ r1.TotalUsage = float64Sum (usages r.Jobs)
      ∧ r2.TotalUsage = float64Sum (usages jobs2)
      ∧ (float64Sum (usages jobs2) = float64Sum (usages r.Jobs) →
          r2.TotalUsage = r1.TotalUsage
          ∧ r2.TotalUsageCeiling = r1.TotalUsageCeiling
          ∧ r2.ThresholdBreached = r1.ThresholdBreached ∧ r2.Percentage = r1.Percentage) := by
  have hz : r.TotalUsage = F64.zero := (hc.2 id r hr).2.1
  have hs1 : (usages r.Jobs).foldl F64.add r.TotalUsage = float64Sum (usages r.Jobs) := by
    rw [hz]
    rfl
  have hs2 : (usages ({ r with Jobs := jobs2 } : Reservation).Jobs).foldl F64.add
      ({ r with Jobs := jobs2 } : Reservation).TotalUsage = float64Sum (usages jobs2) := by
    show (usages jobs2).foldl F64.add r.TotalUsage = _
    rw [hz]
    rfl
  refine ⟨computeReservation threshold r, computeReservation threshold { r with Jobs := jobs2 },
    ?_, ?_, ?_, ?_, ?_, ?_, ?_⟩
  · rw [mapGet_ComputeUtilization state hc.1, hr]
    rfl
  · rw [mapGet_ComputeUtilization state2 hc2.1, hr2]
    rfl
  · rw [computeReservation_NumJobs]
  · rw [computeReservation_NumJobs, computeReservation_NumJobs]
    exact congrArg Nat.cast hperm.length_eq
  · rw [computeReservation_TotalUsage, hs1]
  · rw [computeReservation_TotalUsage, hs2]
  · intro hsum
    refine ⟨?_, ?_, ?_, ?_⟩
    · rw [computeReservation_TotalUsage, computeReservation_TotalUsage, hs1, hs2, hsum]
    · rw [computeReservation_TotalUsageCeiling, computeReservation_TotalUsageCeiling, hs1, hs2,
        hsum]
    · rw [computeReservation_ThresholdBreached, computeReservation_ThresholdBreached, hs1, hs2,
        hsum]
    · rw [computeReservation_Percentage, computeReservation_Percentage, hs1, hs2, hsum]

theorem scenarioBSwapped_perm : scenarioBSwappedJobs.Perm scenarioBReservation.Jobs :=
  List.Perm.swap _ _ _

set_option maxRecDepth 100000 in
theorem scenarioBSwapped_sum :
    float64Sum (usages scenarioBSwappedJobs) = float64Sum (usages scenarioBReservation.Jobs) := by
  decide

/-- Witness of `ComputeUtilization_perm`: Scenario B with its two jobs in
either order; the two `float64` sums 4 + 3 and 3 + 4 are the same. -/
theorem ComputeUtilization_perm_witness :
    scenarioB.Collected ∧ scenarioBSwapped.Collected
      ∧ scenarioBSwappedJobs.Perm scenarioBReservation.Jobs
      ∧ scenarioBSwappedJobs ≠ scenarioBReservation.Jobs
      ∧ ∃ r1 r2, mapGet (scenarioB.ComputeUtilization eightTenths).Reservations "US.R2" = some r1
        ∧ mapGet (scenarioBSwapped.ComputeUtilization eightTenths).Reservations "US.R2" = some r2
        ∧ r2.NumJobs = r1.NumJobs ∧ r2.TotalUsage = r1.TotalUsage
        ∧ r2.TotalUsageCeiling = r1.TotalUsageCeiling
        ∧ r2.ThresholdBreached = r1.ThresholdBreached ∧ r2.Percentage = r1.Percentage := by
  have hc2 : scenarioBSwapped.Collected := Collected_singleton _ _ ⟨rfl, rfl, rfl, rfl, rfl⟩
  have hne : scenarioBSwappedJobs ≠ scenarioBReservation.Jobs := by
    intro h
    have h2 := congrArg (fun l => l.map Job.Name) h
    revert h2
    decide
  obtain ⟨r1, r2, h1, h2, _, h4, _, _, h7⟩ :=
    ComputeUtilization_perm scenarioB scenarioBSwapped scenarioB_collected hc2 eightTenths
      "US.R2" scenarioBReservation scenarioBSwappedJobs scenarioB_get
      (by simp [scenarioBSwapped, mapGet]) scenarioBSwapped_perm
  obtain ⟨h8, h9, h10, h11⟩ := h7 scenarioBSwapped_sum
  exact ⟨scenarioB_collected, hc2, scenarioBSwapped_perm, hne, r1, r2, h1, h2, h4, h8, h9, h10,
    h11⟩

theorem tenths_perm : tenthsJobs.reverse.Perm tenthsJobs :=
  List.reverse_perm _

set_option maxRecDepth 100000 in
theorem tenths_computed :
    (computeReservation sumOfTenths tenthsReservation).TotalUsage
        = F64.fin false 5404319552844596 (-53)
      ∧ (computeReservation sumOfTenths
          { tenthsReservation with Jobs := tenthsJobs.reverse }).TotalUsage
        = F64.fin false 5404319552844595 (-53)
      ∧ (computeReservation sumOfTenths tenthsReservation).ThresholdBreached = true
      ∧ (computeReservation sumOfTenths
          { tenthsReservation with Jobs := tenthsJobs.reverse }).ThresholdBreached = false := by
  decide

/-- C13 fails as stated: the jobs of usage 0.1, 0.2 and 0.3 on one slot give
the total usage 0.6000000000000001 and, at that threshold, a breach, while the
same jobs in the reverse order give the total usage 0.6 and no breach: the
`float64` sum depends on the order in which the usages are added. -/
theorem ComputeUtilization_perm_counterexample :
    tenths.Collected ∧ tenthsReversed.Collected
      ∧ mapGet tenths.Reservations "US.R3" = some tenthsReservation
      ∧ mapGet tenthsReversed.Reservations "US.R3"
          = some { tenthsReservation with Jobs := tenthsJobs.reverse }
      ∧ tenthsJobs.reverse.Perm tenthsReservation.Jobs
      ∧ ∃ r1 r2, mapGet (tenths.ComputeUtilization sumOfTenths).Reservations "US.R3" = some r1
        ∧ mapGet (tenthsReversed.ComputeUtilization sumOfTenths).Reservations "US.R3" = some r2
        ∧ r2.TotalUsage ≠ r1.TotalUsage
        ∧ r1.ThresholdBreached = true ∧ r2.ThresholdBreached = false := by
  have hc1 : tenths.Collected := Collected_singleton _ _ ⟨rfl, rfl, rfl, rfl, rfl⟩
  have hc2 : tenthsReversed.Collected := Collected_singleton _ _ ⟨rfl, rfl, rfl, rfl, rfl⟩
  have hg1 : mapGet tenths.Reservations "US.R3" = some tenthsReservation := by
    simp [tenths, mapGet]
  have hg2 : mapGet tenthsReversed.Reservations "US.R3"
      = some { tenthsReservation with Jobs := tenthsJobs.reverse } := by
    simp [tenthsReversed, mapGet]
  refine ⟨hc1, hc2, hg1, hg2, tenths_perm, computeReservation sumOfTenths tenthsReservation,
    computeReservation sumOfTenths { tenthsReservation with Jobs := tenthsJobs.reverse },
    ?_, ?_, ?_, tenths_computed.2.2.1, tenths_computed.2.2.2⟩
  · rw [mapGet_ComputeUtilization _ hc1.1, hg1]
    rfl
  · rw [mapGet_ComputeUtilization _ hc2.1, hg2]
    rfl
  · rw [tenths_computed.1, tenths_computed.2.1]
    decide

/-! ## The cache -/

theorem timeSub_ge (t u ttl : Int) (httl : ttl ≤ maxDuration) (h : u + ttl < t) :
    ttl ≤ timeSub t u := by
  unfold timeSub
  have hmin : minDuration ≤ maxDuration := by decide
  split_ifs <;> omega

theorem timeSub_lt (t u ttl : Int) (h0 : u ≤ t) (h : t - u < ttl) :
    timeSub t u < ttl := by
  unfold timeSub
  have hmin : minDuration < 0 := by decide
  split_ifs <;> omega

theorem Cache.step_maxTTL (c : Cache) (op : CacheOp) : (c.step op).maxTTL = c.maxTTL := by
  cases op with
  | add now key projects => rfl
  | get now key =>
    simp only [Cache.step, Cache.Get]
    split
    · rfl
    · split <;> rfl

theorem Cache.run_maxTTL (c : Cache) (ops : List CacheOp) : (c.run ops).maxTTL = c.maxTTL := by
  induction ops generalizing c with
  | nil => rfl
  | cons op rest ih =>
    simp only [Cache.run, List.foldl_cons] at ih ⊢
    rw [ih, Cache.step_maxTTL]

/-- A call that is not an `Add` for `key` leaves the entry of `key` as it is or
removes it. -/
theorem Cache.step_items_of_not_add (c : Cache) (op : CacheOp) (key : String)
    (h : op.isAddOf key = false) :
    (c.step op).items key = c.items key ∨ (c.step op).items key = none := by
  cases op with
  | add now k projects =>
    have hk : ¬ k = key := by simpa [CacheOp.isAddOf] using h
    have hk2 : ¬ key = k := fun e => hk e.symm
    left
    simp [Cache.step, Cache.Add, hk2]
  | get now k =>
    simp only [Cache.step, Cache.Get]
    split
    · left; rfl
    · split
      · by_cases hk : key = k
        · right; simp [hk]
        · left; simp [hk]
      · left; rfl

/-- A call on another key leaves the entry of `key` as it is. -/
theorem Cache.step_items_of_key_ne (c : Cache) (op : CacheOp) (key : String)
    (h : op.key ≠ key) : (c.step op).items key = c.items key := by
  have hk2 : ∀ k, k ≠ key → ¬ key = k := fun k hk e => hk e.symm
  cases op with
  | add now k projects =>
    simp [Cache.step, Cache.Add, hk2 k h]
  | get now k =>
    simp only [Cache.step, Cache.Get]
    split
    · rfl
    · split
      · simp [hk2 k h]
      · rfl

theorem Cache.run_items_of_not_add (c : Cache) (ops : List CacheOp) (key : String)
    (h : ∀ op ∈ ops, op.isAddOf key = false) :
    (c.run ops).items key = c.items key ∨ (c.run ops).items key = none := by
  induction ops generalizing c with
  | nil => left; rfl
  | cons op rest ih =>
    have hop := h op (List.mem_cons_self _ _)
    have hrest : ∀ o ∈ rest, o.isAddOf key = false :=
      fun o ho => h o (List.mem_cons_of_mem _ ho)
    simp only [Cache.run, List.foldl_cons] at ih ⊢
    rcases ih (c.step op) hrest with h1 | h1
    · rcases Cache.step_items_of_not_add c op key hop with h2 | h2
      · left; rw [h1, h2]
      · right; rw [h1, h2]
    · right; exact h1

theorem Cache.run_items_of_key_ne (c : Cache) (ops : List CacheOp) (key : String)
    (h : ∀ op ∈ ops, op.key ≠ key) : (c.run ops).items key = c.items key := by
  induction ops generalizing c with
  | nil => rfl
  | cons op rest ih =>
    have hop := h op (List.mem_cons_self _ _)
    have hrest : ∀ o ∈ rest, o.key ≠ key := fun o ho => h o (List.mem_cons_of_mem _ ho)
    simp only [Cache.run, List.foldl_cons] at ih ⊢
    rw [ih (c.step op) hrest, Cache.step_items_of_key_ne c op key hop]

theorem Cache.Get_of_none (c : Cache) (now : Int) (key : String) (h : c.items key = none) :
    c.Get now key = (c, Except.error ("key not in cache: " ++ key)) := by
  simp [Cache.Get, h]

theorem Cache.Get_of_stale (c : Cache) (now : Int) (key : String) (item : cacheItem)
    (h : c.items key = some item) (hs : c.maxTTL ≤ timeSub now item.updated) :
    c.Get now key
      = ({ c with items := fun k => if k = key then none else c.items k },
          Except.error ("cache appears stale for key: " ++ key)) := by
  simp [Cache.Get, h, hs]

theorem Cache.Get_of_fresh (c : Cache) (now : Int) (key : String) (item : cacheItem)
    (h : c.items key = some item) (hs : timeSub now item.updated < c.maxTTL) :
    c.Get now key = (c, Except.ok item.projects) := by
  simp [Cache.Get, h, not_le.2 hs]

/-- C6: for every cache, key and value, if the most recent `Add` for the key
happened at time `t` (calls that are not an `Add` for the key may follow it)
and `Get(key)` is called at a time later than `t + maxTTL`, then `Get` reports
a miss (an error and no list) and the entry is gone, and after any further
calls that are not an `Add` for the key every `Get(key)` reports a miss too. -/
theorem Cache.Get_expired (c0 : Cache) (hwf : c0.maxTTL ≤ maxDuration) (key : String)
    (v : List String) (t now now' : Int) (mid late : List CacheOp)
    (hmid : ∀ op ∈ mid, op.isAddOf key = false) (hnow : t + c0.maxTTL < now)
    (hlate : ∀ op ∈ late, op.isAddOf key = false) :
    isError (((c0.Add t key v).run mid).Get now key).2 = true
      ∧ (((c0.Add t key v).run mid).Get now key).1.items key = none
      ∧ isError (((((c0.Add t key v).run mid).Get now key).1.run late).Get now' key).2
          = true := by
  have httl : ((c0.Add t key v).run mid).maxTTL = c0.maxTTL := by
    rw [Cache.run_maxTTL]
    rfl
  have hadd : (c0.Add t key v).items key = some { updated := t, projects := v } := by
    simp [Cache.Add]
  have hfirst : isError (((c0.Add t key v).run mid).Get now key).2 = true
      ∧ (((c0.Add t key v).run mid).Get now key).1.items key = none := by
    rcases Cache.run_items_of_not_add (c0.Add t key v) mid key hmid with h | h
    · rw [hadd] at h
      have hs : ((c0.Add t key v).run mid).maxTTL
          ≤ timeSub now ({ updated := t, projects := v } : cacheItem).updated := by
        rw [httl]
        exact timeSub_ge now t c0.maxTTL hwf hnow
      rw [Cache.Get_of_stale _ now key _ h hs]
      simp [isError]
    · rw [Cache.Get_of_none _ now key h]
      exact ⟨rfl, h⟩
  refine ⟨hfirst.1, hfirst.2, ?_⟩
  have hnone : ((((c0.Add t key v).run mid).Get now key).1.run late).items key = none := by
    rcases Cache.run_items_of_not_add _ late key hlate with h | h
    · rw [h]
      exact hfirst.2
    · exact h
  rw [Cache.Get_of_none _ now' key hnone]
  rfl

/-- Witness of `Cache.Get_expired`: an entry added at time 0 to a cache of
`maxTTL` one hour, read one nanosecond after the hour. -/
theorem Cache.Get_expired_witness :
    (Cache.Initialize hour).maxTTL ≤ maxDuration
      ∧ (∀ op ∈ otherKeyCalls, op.isAddOf "folders/F1" = false)
      ∧ 0 + (Cache.Initialize hour).maxTTL < hour + 1
      ∧ isError ((((Cache.Initialize hour).Add 0 "folders/F1" ["P1", "P2"]).run
          otherKeyCalls).Get (hour + 1) "folders/F1").2 = true
      ∧ isError ((((((Cache.Initialize hour).Add 0 "folders/F1" ["P1", "P2"]).run
          otherKeyCalls).Get (hour + 1) "folders/F1").1.run otherKeyCalls).Get
            (hour + 2) "folders/F1").2 = true := by
  have h1 : (Cache.Initialize hour).maxTTL ≤ maxDuration := by decide
  have h2 : ∀ op ∈ otherKeyCalls, op.isAddOf "folders/F1" = false := by decide
  have h3 : 0 + (Cache.Initialize hour).maxTTL < hour + 1 := by decide
  have h := Cache.Get_expired (Cache.Initialize hour) h1 "folders/F1" ["P1", "P2"] 0
    (hour + 1) (hour + 2) otherKeyCalls otherKeyCalls h2 h3 h2
  exact ⟨h1, h2, h3, h.1, h.2.2⟩

/-- C7: for every cache (an initialized cache after any earlier calls), key and
value `v`: after `Add(key, v)` at time `t` and any `Add` and `Get` calls on
other keys, a `Get(key)` issued when less than `maxTTL` has elapsed since `t`
succeeds and returns exactly `v`, and it leaves the cache, with the entry of
the key in it, as it is. -/
theorem Cache.Get_fresh (c0 : Cache) (key : String) (v : List String) (t now : Int)
    (mid : List CacheOp) (hmid : ∀ op ∈ mid, op.key ≠ key) (h0 : t ≤ now)
    (hnow : now - t < c0.maxTTL) :
    ((c0.Add t key v).run mid).Get now key = ((c0.Add t key v).run mid, Except.ok v)
      ∧ ((c0.Add t key v).run mid).items key = some { updated := t, projects := v } := by
  have httl : ((c0.Add t key v).run mid).maxTTL = c0.maxTTL := by
    rw [Cache.run_maxTTL]
    rfl
  have hitem : ((c0.Add t key v).run mid).items key
      = some { updated := t, projects := v } := by
    rw [Cache.run_items_of_key_ne _ mid key hmid]
    simp [Cache.Add]
  refine ⟨?_, hitem⟩
  have hs : timeSub now ({ updated := t, projects := v } : cacheItem).updated
      < ((c0.Add t key v).run mid).maxTTL := by
    rw [httl]
    exact timeSub_lt now t c0.maxTTL h0 hnow
  rw [Cache.Get_of_fresh _ now key _ hitem hs]

/-- Witness of `Cache.Get_fresh`: an entry added at time 0 to a cache of
`maxTTL` one hour, read after calls on two other keys, one nanosecond before
the hour has passed. -/
theorem Cache.Get_fresh_witness :
    (∀ op ∈ otherKeyCalls, op.key ≠ "folders/F1") ∧ (0 : Int) ≤ hour - 1
      ∧ hour - 1 - 0 < (Cache.Initialize hour).maxTTL
      ∧ ((((Cache.Initialize hour).Add 0 "folders/F1" ["P1", "P2"]).run otherKeyCalls).Get
          (hour - 1) "folders/F1").2 = Except.ok ["P1", "P2"] := by
  have h1 : ∀ op ∈ otherKeyCalls, op.key ≠ "folders/F1" := by decide
  have h2 : (0 : Int) ≤ hour - 1 := by decide
  have h3 : hour - 1 - 0 < (Cache.Initialize hour).maxTTL := by decide
  have h := Cache.Get_fresh (Cache.Initialize hour) "folders/F1" ["P1", "P2"] 0 (hour - 1)
    otherKeyCalls h1 h2 h3
  exact ⟨h1, h2, h3, by rw [h.1]⟩

/-! ## The hierarchy resolver -/

/-- The two ways `Get` ends: a hit that returns the entry's list and leaves the
cache as it is, or a miss after which the key has no entry and every other
entry is as before. -/
theorem Cache.Get_cases (c : Cache) (now : Int) (key : String) :
    (∃ item, c.items key = some item ∧ timeSub now item.updated < c.maxTTL
        ∧ c.Get now key = (c, Except.ok item.projects))
    ∨ (∃ c1 msg, c.Get now key = (c1, Except.error msg) ∧ c1.maxTTL = c.maxTTL
        ∧ c1.items key = none ∧ ∀ k, c1.items k = c.items k ∨ c1.items k = none) := by
  cases hi : c.items key with
  | none =>
    right
    exact ⟨c, _, Cache.Get_of_none c now key hi, rfl, hi, fun k => Or.inl rfl⟩
  | some item =>
    by_cases hs : c.maxTTL ≤ timeSub now item.updated
    · right
      refine ⟨_, _, Cache.Get_of_stale c now key item hi hs, rfl, by simp, ?_⟩
      intro k
      by_cases hk : k = key <;> simp [hk]
    · left
      exact ⟨item, rfl, not_le.1 hs, Cache.Get_of_fresh c now key item hi (not_le.1 hs)⟩

theorem SoundOn_of_removed (P : String → Prop) (h : Hierarchy) (c c1 : Cache)
    (hle : ∀ k, c1.items k = c.items k ∨ c1.items k = none) (hs : SoundOn P h c) :
    SoundOn P h c1 := by
  intro k item hk hitem
  rcases hle k with h1 | h1
  · exact hs k item hk (h1 ▸ hitem)
  · rw [h1] at hitem
    cases hitem

theorem SoundOn_Add (P : String → Prop) (h : Hierarchy) (c : Cache) (now : Int)
    (key : String) (r : List String) (hs : SoundOn P h c)
    (hr : ∀ p, p ∈ r ↔ LeafBeneath h key p) : SoundOn P h (c.Add now key r) := by
  intro k item hk hitem
  by_cases hkey : k = key
  · subst hkey
    simp only [Cache.Add, if_true, Option.some.injEq] at hitem
    subst hitem
    exact hr
  · simp only [Cache.Add, hkey, if_false] at hitem
    exact hs k item hk hitem

/-- The leaf projects beneath a node whose two listings are known. -/
theorem LeafBeneath_iff (h : Hierarchy) (parent : String) (folders projects : List String)
    (hf : h.listFolders parent = Except.ok folders)
    (hp : h.listProjects parent = Except.ok projects) (p : String) :
    LeafBeneath h parent p ↔
      p ∈ projects ∨ ∃ name ∈ folders, ∃ folderName,
        (stringsSplit name '/')[1]? = some folderName
        ∧ LeafBeneath h ("folders" ++ "/" ++ folderName) p := by
  constructor
  · intro hl
    cases hl with
    | direct hp2 hmem =>
      rw [hp] at hp2
      cases hp2
      exact Or.inl hmem
    | nested hf2 hmem hsplit hrest =>
      rw [hf] at hf2
      cases hf2
      exact Or.inr ⟨_, hmem, _, hsplit, hrest⟩
  · rintro (hmem | ⟨name, hmem, folderName, hsplit, hrest⟩)
    · exact LeafBeneath.direct hp hmem
    · exact LeafBeneath.nested hf hmem hsplit hrest

theorem retrieveResourceChildren_projects (h : Hierarchy) (clock : Nat → Int) (fuel : Nat)
    (w : World) (projectId : String) :
    retrieveResourceChildren h clock (fuel + 1) w "projects" projectId
      = (w, Outcome.ok [projectId]) := by
  simp [retrieveResourceChildren]

theorem resolveProjects_eq (recurse : World → String → String → World × Outcome (List String))
    (hrec : ∀ w projectId, recurse w "projects" projectId = (w, Outcome.ok [projectId]))
    (projects : List String) (w : World) (acc : List String) :
    resolveProjects recurse projects w acc = (w, Outcome.ok (acc ++ projects)) := by
  induction projects generalizing acc with
  | nil => simp [resolveProjects]
  | cons projectId rest ih =>
    simp only [resolveProjects, hrec]
    rw [ih]
    simp

/-- The folder loop, for a recursive call that resolves every folder in `G`
to its leaf projects and keeps the cache sound. -/
theorem resolveFolders_sound (P : String → Prop) (h : Hierarchy) (G : String → Prop)
    (recurse : World → String → String → World × Outcome (List String))
    (hrec : ∀ w folderName, G folderName → SoundOn P h w.cache →
      ∃ w1 r, recurse w "folders" folderName = (w1, Outcome.ok r)
        ∧ (∀ p, p ∈ r ↔ LeafBeneath h ("folders" ++ "/" ++ folderName) p)
        ∧ SoundOn P h w1.cache)
    (names : List String)
    (hnames : ∀ name ∈ names, ∃ folderName,
      (stringsSplit name '/')[1]? = some folderName ∧ G folderName)
    (w : World) (acc : List String) (hs : SoundOn P h w.cache) :
    ∃ w1 r, resolveFolders recurse names w acc = (w1, Outcome.ok r)
      ∧ (∀ p, p ∈ r ↔ p ∈ acc ∨ ∃ name ∈ names, ∃ folderName,
            (stringsSplit name '/')[1]? = some folderName
            ∧ LeafBeneath h ("folders" ++ "/" ++ folderName) p)
      ∧ SoundOn P h w1.cache := by
  induction names generalizing w acc with
  | nil =>
    exact ⟨w, acc, rfl, by simp, hs⟩
  | cons name rest ih =>
    obtain ⟨folderName, hsplit, hG⟩ := hnames name (List.mem_cons_self _ _)
    obtain ⟨w1, r, hcall, hr, hs1⟩ := hrec w folderName hG hs
    obtain ⟨w2, r2, hloop, hr2, hs2⟩ :=
      ih (fun n hn => hnames n (List.mem_cons_of_mem _ hn)) w1 (acc ++ r) hs1
    refine ⟨w2, r2, ?_, ?_, hs2⟩
    · simp only [resolveFolders, hsplit, hcall]
      exact hloop
    · intro p
      rw [hr2 p, List.mem_append, hr p]
      constructor
      · rintro ((hacc | hleaf) | ⟨n, hn, fn, hfn, hl⟩)
        · exact Or.inl hacc
        · exact Or.inr ⟨name, List.mem_cons_self _ _, folderName, hsplit, hleaf⟩
        · exact Or.inr ⟨n, List.mem_cons_of_mem _ hn, fn, hfn, hl⟩
      · rintro (hacc | ⟨n, hn, fn, hfn, hl⟩)
        · exact Or.inl (Or.inl hacc)
        · rcases List.mem_cons.1 hn with heq | hmem
          · subst heq
            rw [hsplit] at hfn
            cases hfn
            exact Or.inl (Or.inr hl)
          · exact Or.inr ⟨n, hmem, fn, hfn, hl⟩

/-- The resolver on a folder or organization whose subtree is finite, acyclic
and listable, started with a cache that is sound on a set `P` of nodes closed
under listed folders: with budget above the depth it returns a list that holds
exactly the leaf projects beneath the node, and the cache stays sound. -/
theorem retrieveResourceChildren_sound (P : String → Prop) (h : Hierarchy)
    (clock : Nat → Int)
    (hP : ∀ parent folders name folderName, P parent →
      h.listFolders parent = Except.ok folders → name ∈ folders →
      (stringsSplit name '/')[1]? = some folderName → P ("folders" ++ "/" ++ folderName))
    (d : Nat) :
    ∀ (fuel : Nat) (w : World) (resourceType resourceName : String), d < fuel →
      (resourceType = "organizations" ∨ resourceType = "folders") →
      Subtree h d (resourceType ++ "/" ++ resourceName) →
      P (resourceType ++ "/" ++ resourceName) → SoundOn P h w.cache →
      ∃ w1 r, retrieveResourceChildren h clock fuel w resourceType resourceName
          = (w1, Outcome.ok r)
        ∧ (∀ p, p ∈ r ↔ LeafBeneath h (resourceType ++ "/" ++ resourceName) p)
        ∧ SoundOn P h w1.cache := by
  induction d with
  | zero =>
    intro fuel w rt rn _ _ hsub
    simp [Subtree] at hsub
  | succ d ih =>
    intro fuel w rt rn hfuel hkind hsub hPk hs
    simp only [Subtree] at hsub
    obtain ⟨folders, projects, hf, hp, hchildren⟩ := hsub
    obtain ⟨f, rfl⟩ : ∃ f, fuel = f + 1 := ⟨fuel - 1, by omega⟩
    have hd : d < f := by omega
    obtain ⟨f', hf'⟩ : ∃ f', f = f' + 1 := ⟨f - 1, by omega⟩
    have hnotproj : ¬ rt = "projects" := by
      rcases hkind with hk | hk <;> (rw [hk]; decide)
    simp only [retrieveResourceChildren, hnotproj, if_false, hkind, if_true]
    rcases Cache.Get_cases w.cache (clock w.tick) (rt ++ "/" ++ rn) with
      ⟨item, hitem, _, hget⟩ | ⟨c1, msg, hget, _, _, hle⟩
    · rw [hget]
      exact ⟨_, _, rfl, hs _ item hPk hitem, hs⟩
    · rw [hget]
      simp only [hf]
      have hs1 : SoundOn P h c1 := SoundOn_of_removed P h w.cache c1 hle hs
      obtain ⟨w2, r2, hloop, hr2, hs2⟩ :=
        resolveFolders_sound P h
          (fun fn => Subtree h d ("folders" ++ "/" ++ fn) ∧ P ("folders" ++ "/" ++ fn))
          (retrieveResourceChildren h clock f)
          (fun w0 fn hG hsw => ih f w0 "folders" fn hd (Or.inr rfl) hG.1 hG.2 hsw)
          folders
          (fun name hn => by
            obtain ⟨fn, hsplit, hsub⟩ := hchildren name hn
            exact ⟨fn, hsplit, hsub, hP _ folders name fn hPk hf hn hsplit⟩)
          { cache := c1, tick := w.tick + 1 } [] hs1
      rw [hloop]
      simp only [hp]
      rw [resolveProjects_eq _ (fun w0 projectId => by
        rw [hf']
        exact retrieveResourceChildren_projects h clock f' w0 projectId)]
      have hr : ∀ p, p ∈ r2 ++ projects ↔ LeafBeneath h (rt ++ "/" ++ rn) p := by
        intro p
        rw [LeafBeneath_iff h _ folders projects hf hp p, List.mem_append, hr2 p]
        simp only [List.not_mem_nil, false_or]
        exact Or.comm
      exact ⟨_, _, rfl, hr, SoundOn_Add P h _ _ _ _ hs2 hr⟩

theorem SoundOn_of_cold (P : String → Prop) (h : Hierarchy) (c : Cache)
    (hcold : ∀ k, P k → c.items k = none) : SoundOn P h c := by
  intro k item hk hitem
  rw [hcold k hk] at hitem
  cases hitem

theorem scenarioC_split : (stringsSplit "folders/F1" '/')[1]? = some "F1" := by decide

theorem scenarioC_listFolders_org :
    scenarioC.listFolders ("organizations" ++ "/" ++ "ORG1") = Except.ok ["folders/F1"] := by
  rfl

theorem scenarioC_listProjects_org :
    scenarioC.listProjects ("organizations" ++ "/" ++ "ORG1") = Except.ok ["P3"] := by
  rfl

theorem scenarioC_listFolders_F1 :
    scenarioC.listFolders ("folders" ++ "/" ++ "F1") = Except.ok [] := by
  rfl

theorem scenarioC_listProjects_F1 :
    scenarioC.listProjects ("folders" ++ "/" ++ "F1") = Except.ok ["P1", "P2"] := by
  rfl

theorem scenarioC_subtree : Subtree scenarioC 2 ("organizations" ++ "/" ++ "ORG1") := by
  refine ⟨["folders/F1"], ["P3"], scenarioC_listFolders_org, scenarioC_listProjects_org, ?_⟩
  intro name hname
  rw [List.mem_singleton] at hname
  subst hname
  refine ⟨"F1", scenarioC_split, [], ["P1", "P2"], scenarioC_listFolders_F1,
    scenarioC_listProjects_F1, ?_⟩
  intro name hname
  cases hname

theorem scenarioC_reaches (k : String)
    (hk : Reaches scenarioC ("organizations" ++ "/" ++ "ORG1") k) :
    k = "organizations" ++ "/" ++ "ORG1" ∨ k = "folders" ++ "/" ++ "F1" := by
  induction hk with
  | self => exact Or.inl rfl
  | child hreach hf hname hsplit ih =>
    rcases ih with hpar | hpar
    · rw [hpar, scenarioC_listFolders_org] at hf
      cases hf
      rw [List.mem_singleton] at hname
      subst hname
      rw [scenarioC_split] at hsplit
      cases hsplit
      exact Or.inr rfl
    · rw [hpar, scenarioC_listFolders_F1] at hf
      cases hf
      cases hname

theorem scenarioC_leaves (p : String) :
    LeafBeneath scenarioC ("organizations" ++ "/" ++ "ORG1") p
      ↔ p = "P1" ∨ p = "P2" ∨ p = "P3" := by
  have hF1 : LeafBeneath scenarioC ("folders" ++ "/" ++ "F1") p ↔ p = "P1" ∨ p = "P2" := by
    rw [LeafBeneath_iff scenarioC _ [] ["P1", "P2"] scenarioC_listFolders_F1
      scenarioC_listProjects_F1 p]
    simp
  rw [LeafBeneath_iff scenarioC _ ["folders/F1"] ["P3"] scenarioC_listFolders_org
    scenarioC_listProjects_org p]
  constructor
  · rintro (h3 | ⟨name, hname, fn, hsplit, hleaf⟩)
    · rw [List.mem_singleton] at h3
      exact Or.inr (Or.inr h3)
    · rw [List.mem_singleton] at hname
      subst hname
      rw [scenarioC_split] at hsplit
      cases hsplit
      rcases hF1.1 hleaf with h1 | h2
      · exact Or.inl h1
      · exact Or.inr (Or.inl h2)
  · rintro (h1 | h2 | h3)
    · exact Or.inr ⟨_, List.mem_singleton.2 rfl, "F1", scenarioC_split, hF1.2 (Or.inl h1)⟩
    · exact Or.inr ⟨_, List.mem_singleton.2 rfl, "F1", scenarioC_split, hF1.2 (Or.inr h2)⟩
    · exact Or.inl (List.mem_singleton.2 h3)

/-- C5: for every hierarchy that is finite and acyclic beneath a folder or
organization node and whose listings there succeed, `retrieveResourceChildren`
on that node, started with a cache that has no entry for the node or any node
beneath it (and with recursion budget above the depth), returns a list whose
elements are exactly the leaf projects transitively beneath the node.  In
particular, for `ORG1` containing folder `F1` (with `P1`, `P2`) and project
`P3`, the elements of the result are exactly `P1`, `P2` and `P3`. -/
theorem retrieveResourceChildren_leaves :
    (∀ (h : Hierarchy) (clock : Nat → Int) (d fuel : Nat) (w : World)
        (resourceType resourceName : String),
        (resourceType = "organizations" ∨ resourceType = "folders") →
        Subtree h d (resourceType ++ "/" ++ resourceName) → d < fuel →
        (∀ k, Reaches h (resourceType ++ "/" ++ resourceName) k → w.cache.items k = none) →
        ∃ w1 r, retrieveResourceChildren h clock fuel w resourceType resourceName
            = (w1, Outcome.ok r)
          ∧ ∀ p, p ∈ r ↔ LeafBeneath h (resourceType ++ "/" ++ resourceName) p)
    ∧ (∀ (clock : Nat → Int) (fuel : Nat) (w : World), 2 < fuel →
        w.cache.items "organizations/ORG1" = none → w.cache.items "folders/F1" = none →
        ∃ w1 r, retrieveResourceChildren scenarioC clock fuel w "organizations" "ORG1"
            = (w1, Outcome.ok r)
          ∧ ∀ p, p ∈ r ↔ p = "P1" ∨ p = "P2" ∨ p = "P3") := by
  have general : ∀ (h : Hierarchy) (clock : Nat → Int) (d fuel : Nat) (w : World)
      (resourceType resourceName : String),
      (resourceType = "organizations" ∨ resourceType = "folders") →
      Subtree h d (resourceType ++ "/" ++ resourceName) → d < fuel →
      (∀ k, Reaches h (resourceType ++ "/" ++ resourceName) k → w.cache.items k = none) →
      ∃ w1 r, retrieveResourceChildren h clock fuel w resourceType resourceName
          = (w1, Outcome.ok r)
        ∧ ∀ p, p ∈ r ↔ LeafBeneath h (resourceType ++ "/" ++ resourceName) p := by
    intro h clock d fuel w rt rn hkind hsub hfuel hcold
    obtain ⟨w1, r, hcall, hr, _⟩ :=
      retrieveResourceChildren_sound (Reaches h (rt ++ "/" ++ rn)) h clock
        (fun parent folders name fn hreach hf hn hsplit => Reaches.child hreach hf hn hsplit)
        d fuel w rt rn hfuel hkind hsub Reaches.self
        (SoundOn_of_cold _ h w.cache hcold)
    exact ⟨w1, r, hcall, hr⟩
  refine ⟨general, ?_⟩
  intro clock fuel w hfuel horg hF1
  obtain ⟨w1, r, hcall, hr⟩ := general scenarioC clock 2 fuel w "organizations" "ORG1"
    (Or.inl rfl) scenarioC_subtree hfuel (by
      intro k hk
      rcases scenarioC_reaches k hk with h1 | h1
      · rw [h1]
        exact horg
      · rw [h1]
        exact hF1)
  exact ⟨w1, r, hcall, fun p => (hr p).trans (scenarioC_leaves p)⟩

/-- Witness of `retrieveResourceChildren_leaves`: Scenario C resolved from a
cold cache returns the list `P1`, `P2`, `P3`. -/
theorem retrieveResourceChildren_leaves_witness :
    Subtree scenarioC 2 ("organizations" ++ "/" ++ "ORG1")
      ∧ (∀ k, Reaches scenarioC ("organizations" ++ "/" ++ "ORG1") k →
          coldWorld.cache.items k = none)
      ∧ (retrieveResourceChildren scenarioC secondsClock 3 coldWorld "organizations" "ORG1").2
          = Outcome.ok ["P1", "P2", "P3"]
      ∧ ∃ w1 r, retrieveResourceChildren scenarioC secondsClock 3 coldWorld
            "organizations" "ORG1" = (w1, Outcome.ok r)
          ∧ ∀ p, p ∈ r ↔ LeafBeneath scenarioC ("organizations" ++ "/" ++ "ORG1") p :=
  ⟨scenarioC_subtree, fun _ _ => rfl, by decide,
    retrieveResourceChildren_leaves.1 scenarioC secondsClock 2 3 coldWorld
      "organizations" "ORG1" (Or.inl rfl) scenarioC_subtree (by decide) (fun _ _ => rfl)⟩

/-! ## Resolving a node twice -/

theorem resolveFolders_maxTTL
    (recurse : World → String → String → World × Outcome (List String))
    (hrec : ∀ w rt rn, (recurse w rt rn).1.cache.maxTTL = w.cache.maxTTL)
    (names : List String) (w : World) (acc : List String) :
    (resolveFolders recurse names w acc).1.cache.maxTTL = w.cache.maxTTL := by
  induction names generalizing w acc with
  | nil => rfl
  | cons name rest ih =>
    simp only [resolveFolders]
    split
    · rfl
    · rename_i folderName _
      have h1 := hrec w "folders" folderName
      split
      · rename_i w1 children hcall
        rw [hcall] at h1
        rw [ih, h1]
      · rename_i w1 other _ hcall
        rw [hcall] at h1
        exact h1

theorem resolveProjects_maxTTL
    (recurse : World → String → String → World × Outcome (List String))
    (hrec : ∀ w rt rn, (recurse w rt rn).1.cache.maxTTL = w.cache.maxTTL)
    (projects : List String) (w : World) (acc : List String) :
    (resolveProjects recurse projects w acc).1.cache.maxTTL = w.cache.maxTTL := by
  induction projects generalizing w acc with
  | nil => rfl
  | cons projectId rest ih =>
    simp only [resolveProjects]
    have h1 := hrec w "projects" projectId
    split
    · rename_i w1 children hcall
      rw [hcall] at h1
      rw [ih, h1]
    · rename_i w1 other _ hcall
      rw [hcall] at h1
      exact h1

theorem Cache.Get_maxTTL (c : Cache) (now : Int) (key : String) :
    (c.Get now key).1.maxTTL = c.maxTTL :=
  Cache.step_maxTTL c (CacheOp.get now key)

/-- The resolver never changes the configured `maxTTL` of the cache. -/
theorem retrieveResourceChildren_maxTTL (h : Hierarchy) (clock : Nat → Int) (fuel : Nat) :
    ∀ (w : World) (rt rn : String),
      (retrieveResourceChildren h clock fuel w rt rn).1.cache.maxTTL = w.cache.maxTTL := by
  induction fuel with
  | zero => intro w rt rn; rfl
  | succ f ih =>
    intro w rt rn
    simp only [retrieveResourceChildren]
    have hget := Cache.Get_maxTTL w.cache (clock w.tick) (rt ++ "/" ++ rn)
    split
    · rfl
    · split
      · split
        · rename_i c1 result hg
          rw [hg] at hget
          exact hget
        · rename_i c1 e hg
          rw [hg] at hget
          split
          · exact hget
          · rename_i folders _
            have hfold := resolveFolders_maxTTL (retrieveResourceChildren h clock f) ih folders
              { cache := c1, tick := w.tick + 1 } []
            split
            · rename_i w2 result hloop
              rw [hloop] at hfold
              split
              · exact hfold.trans hget
              · rename_i projects _
                have hproj := resolveProjects_maxTTL (retrieveResourceChildren h clock f) ih
                  projects w2 result
                split
                · rename_i w3 result3 hloop3
                  rw [hloop3] at hproj
                  exact (hproj.trans hfold).trans hget
                · rename_i w3 other _ hloop3
                  rw [hloop3] at hproj
                  exact (hproj.trans hfold).trans hget
            · rename_i w2 other _ hloop
              rw [hloop] at hfold
              exact hfold.trans hget
      · rfl

/-- A successful call on a folder or organization that has no cache entry ends
with the `Add` of its result under the qualified path, at the last clock
reading of the call. -/
theorem retrieveResourceChildren_stores (h : Hierarchy) (clock : Nat → Int) (fuel : Nat)
    (w w1 : World) (rt rn : String) (r : List String)
    (hkind : rt = "organizations" ∨ rt = "folders")
    (hcold : w.cache.items (rt ++ "/" ++ rn) = none)
    (hfirst : retrieveResourceChildren h clock fuel w rt rn = (w1, Outcome.ok r)) :
    ∃ w3 : World, w3.cache.maxTTL = w.cache.maxTTL
      ∧ w1 = { cache := w3.cache.Add (clock w3.tick) (rt ++ "/" ++ rn) r, tick := w3.tick + 1 } := by
  have hnotproj : ¬ rt = "projects" := by
    rcases hkind with hk | hk <;> (rw [hk]; decide)
  cases fuel with
  | zero =>
    simp [retrieveResourceChildren] at hfirst
  | succ f =>
    simp only [retrieveResourceChildren, hnotproj, if_false, hkind, if_true,
      Cache.Get_of_none w.cache _ _ hcold] at hfirst
    split at hfirst
    · simp at hfirst
    · rename_i folders _
      have hfold := resolveFolders_maxTTL (retrieveResourceChildren h clock f)
        (retrieveResourceChildren_maxTTL h clock f) folders
        { cache := w.cache, tick := w.tick + 1 } []
      split at hfirst
      · rename_i w2 result hloop
        rw [hloop] at hfold
        split at hfirst
        · simp at hfirst
        · rename_i projects _
          have hproj := resolveProjects_maxTTL (retrieveResourceChildren h clock f)
            (retrieveResourceChildren_maxTTL h clock f) projects w2 result
          split at hfirst
          · rename_i w3 result3 hloop3
            rw [hloop3] at hproj
            simp only [Prod.mk.injEq, Outcome.ok.injEq] at hfirst
            obtain ⟨hw, hres⟩ := hfirst
            subst hres
            exact ⟨w3, hproj.trans hfold, hw.symm⟩
          · rename_i w3 other hne hloop3
            simp only [Prod.mk.injEq] at hfirst
            exact absurd hfirst.2 (hne r)
      · rename_i w2 other hne hloop
        simp only [Prod.mk.injEq] at hfirst
        exact absurd hfirst.2 (hne r)

/-- C8: for every fixed hierarchy and every folder or organization node, when a
call of `retrieveResourceChildren` on the node that starts with no cache entry
for it succeeds with a list `r`, it has stored `r` in the cache under the
qualified path "<kind>/<id>" at its last clock reading; and a second call made
next, before `maxTTL` has elapsed since then, returns the same list `r` from
the cache whatever the upstream listings would answer (so none is consulted),
leaving the cache as it is. -/
theorem retrieveResourceChildren_twice (h : Hierarchy) (clock : Nat → Int) (fuel : Nat)
    (w w1 : World) (rt rn : String) (r : List String)
    (hkind : rt = "organizations" ∨ rt = "folders")
    (hcold : w.cache.items (rt ++ "/" ++ rn) = none)
    (hfirst : retrieveResourceChildren h clock fuel w rt rn = (w1, Outcome.ok r))
    (hmono : clock (w1.tick - 1) ≤ clock w1.tick)
    (hfresh : clock w1.tick - clock (w1.tick - 1) < w.cache.maxTTL) :
    w1.cache.items (rt ++ "/" ++ rn) = some { updated := clock (w1.tick - 1), projects := r }
      ∧ ∀ (h2 : Hierarchy) (fuel2 : Nat), 0 < fuel2 →
          retrieveResourceChildren h2 clock fuel2 w1 rt rn
            = ({ cache := w1.cache, tick := w1.tick + 1 }, Outcome.ok r) := by
  obtain ⟨w3, httl, hw1⟩ := retrieveResourceChildren_stores h clock fuel w w1 rt rn r hkind
    hcold hfirst
  have htick : w1.tick - 1 = w3.tick := by
    rw [hw1]
    simp
  have hitem : w1.cache.items (rt ++ "/" ++ rn)
      = some { updated := clock (w1.tick - 1), projects := r } := by
    rw [htick, hw1]
    simp [Cache.Add]
  have httl1 : w1.cache.maxTTL = w.cache.maxTTL := by
    rw [hw1]
    exact httl
  refine ⟨hitem, ?_⟩
  intro h2 fuel2 hfuel2
  obtain ⟨f, rfl⟩ : ∃ f, fuel2 = f + 1 := ⟨fuel2 - 1, by omega⟩
  have hnotproj : ¬ rt = "projects" := by
    rcases hkind with hk | hk <;> (rw [hk]; decide)
  have hs : timeSub (clock w1.tick)
      ({ updated := clock (w1.tick - 1), projects := r } : cacheItem).updated
        < w1.cache.maxTTL := by
    rw [httl1]
    exact timeSub_lt _ _ _ hmono hfresh
  simp only [retrieveResourceChildren, hnotproj, if_false, hkind, if_true,
    Cache.Get_of_fresh w1.cache (clock w1.tick) _ _ hitem hs]

/-- Witness of `retrieveResourceChildren_twice`: Scenario C resolved from the
cold cache and then once more, one second later, against a hierarchy in which
every listing fails. -/
theorem retrieveResourceChildren_twice_witness :
    coldWorld.cache.items ("organizations" ++ "/" ++ "ORG1") = none
      ∧ retrieveResourceChildren scenarioC secondsClock 3 coldWorld "organizations" "ORG1"
          = (warmWorld, Outcome.ok ["P1", "P2", "P3"])
      ∧ secondsClock (warmWorld.tick - 1) ≤ secondsClock warmWorld.tick
      ∧ secondsClock warmWorld.tick - secondsClock (warmWorld.tick - 1)
          < coldWorld.cache.maxTTL
      ∧ (retrieveResourceChildren failingHierarchy secondsClock 1 warmWorld "organizations"
          "ORG1").2 = Outcome.ok ["P1", "P2", "P3"] := by
  have h1 : retrieveResourceChildren scenarioC secondsClock 3 coldWorld "organizations" "ORG1"
      = (warmWorld, Outcome.ok ["P1", "P2", "P3"]) := rfl
  have h2 : secondsClock (warmWorld.tick - 1) ≤ secondsClock warmWorld.tick := by decide
  have h3 : secondsClock warmWorld.tick - secondsClock (warmWorld.tick - 1)
      < coldWorld.cache.maxTTL := by decide
  have h := retrieveResourceChildren_twice scenarioC secondsClock 3 coldWorld warmWorld
    "organizations" "ORG1" ["P1", "P2", "P3"] (Or.inl rfl) rfl h1 h2 h3
  refine ⟨rfl, h1, h2, h3, ?_⟩
  rw [h.2 failingHierarchy 1 (by decide)]

/-! ## Deduplication -/

theorem trimDuplicatesLoop_eq (rest : List String) :
    ∀ (occurrenceMap : String → Bool) (uniqueItems seen : List String),
      (∀ y, occurrenceMap y = true ↔ y ∈ seen ∧ y ≠ "") →
      trimDuplicatesLoop rest occurrenceMap uniqueItems
        = uniqueItems ++ firstOccurrencesFrom seen rest := by
  induction rest with
  | nil =>
    intro occ acc seen _
    simp [trimDuplicatesLoop, firstOccurrencesFrom]
  | cons x xs ih =>
    intro occ acc seen hocc
    by_cases hx : x = ""
    · have hinv : ∀ y, occ y = true ↔ y ∈ seen ++ [x] ∧ y ≠ "" := by
        intro y
        rw [hocc y, List.mem_append, List.mem_singleton, hx]
        constructor
        · rintro ⟨h1, h2⟩
          exact ⟨Or.inl h1, h2⟩
        · rintro ⟨h1 | h1, h2⟩
          · exact ⟨h1, h2⟩
          · exact absurd h1 h2
      simp only [trimDuplicatesLoop, firstOccurrencesFrom, hx, ne_eq, not_true_eq_false,
        if_false, false_and]
      rw [← hx]
      exact ih occ acc (seen ++ [x]) hinv
    · by_cases ho : occ x = true
      · have hmem : x ∈ seen := ((hocc x).1 ho).1
        have hinv : ∀ y, occ y = true ↔ y ∈ seen ++ [x] ∧ y ≠ "" := by
          intro y
          rw [hocc y, List.mem_append, List.mem_singleton]
          constructor
          · rintro ⟨h1, h2⟩
            exact ⟨Or.inl h1, h2⟩
          · rintro ⟨h1 | h1, h2⟩
            · exact ⟨h1, h2⟩
            · exact ⟨h1 ▸ hmem, h2⟩
        simp only [trimDuplicatesLoop, firstOccurrencesFrom, hx, ne_eq, not_false_eq_true,
          if_true, ho, Bool.not_true, hmem, not_true_eq_false, and_false, if_false]
        exact ih occ acc (seen ++ [x]) hinv
      · have hnmem : x ∉ seen := fun hm => ho ((hocc x).2 ⟨hm, hx⟩)
        have hinv : ∀ y, (if y = x then true else occ y) = true ↔ y ∈ seen ++ [x] ∧ y ≠ "" := by
          intro y
          rw [List.mem_append, List.mem_singleton]
          by_cases hy : y = x
          · simp [hy, hx]
          · simp [hy, hocc y]
        have ho2 : occ x = false := by simpa using ho
        simp only [trimDuplicatesLoop, firstOccurrencesFrom, hx, ne_eq, not_false_eq_true,
          if_true, ho2, Bool.not_false, hnmem, and_self]
        rw [ih _ (acc ++ [x]) (seen ++ [x]) hinv]
        simp

theorem trimDuplicates_eq (s : List String) : trimDuplicates s = firstOccurrences s := by
  unfold trimDuplicates firstOccurrences
  rw [trimDuplicatesLoop_eq s (fun _ => false) [] [] (by simp)]
  simp

theorem mem_firstOccurrencesFrom (xs : List String) :
    ∀ (seen : List String) (y : String),
      y ∈ firstOccurrencesFrom seen xs ↔ y ∈ xs ∧ y ≠ "" ∧ y ∉ seen := by
  induction xs with
  | nil => intro seen y; simp [firstOccurrencesFrom]
  | cons x xs ih =>
    intro seen y
    unfold firstOccurrencesFrom
    split
    · rename_i hc
      rw [List.mem_cons, ih, List.mem_cons, List.mem_append, List.mem_singleton]
      constructor
      · rintro (h1 | ⟨h1, h2, h3⟩)
        · subst h1
          exact ⟨Or.inl rfl, hc.1, hc.2⟩
        · exact ⟨Or.inr h1, h2, fun hm => h3 (Or.inl hm)⟩
      · rintro ⟨h1 | h1, h2, h3⟩
        · exact Or.inl h1
        · by_cases hyx : y = x
          · exact Or.inl hyx
          · exact Or.inr ⟨h1, h2, fun hm => hm.elim h3 hyx⟩
    · rename_i hc
      rw [ih, List.mem_cons, List.mem_append, List.mem_singleton]
      constructor
      · rintro ⟨h1, h2, h3⟩
        exact ⟨Or.inr h1, h2, fun hm => h3 (Or.inl hm)⟩
      · rintro ⟨h1 | h1, h2, h3⟩
        · subst h1
          exact absurd ⟨h2, h3⟩ hc
        · refine ⟨h1, h2, fun hm => hm.elim h3 (fun hyx => ?_)⟩
          subst hyx
          exact hc ⟨h2, h3⟩

theorem nodup_firstOccurrencesFrom (xs : List String) :
    ∀ seen : List String, (firstOccurrencesFrom seen xs).Nodup := by
  induction xs with
  | nil => intro seen; simp [firstOccurrencesFrom]
  | cons x xs ih =>
    intro seen
    unfold firstOccurrencesFrom
    split
    · rw [List.nodup_cons]
      refine ⟨?_, ih _⟩
      rw [mem_firstOccurrencesFrom]
      rintro ⟨_, _, h3⟩
      exact h3 (List.mem_append.2 (Or.inr (List.mem_singleton.2 rfl)))
    · exact ih _

theorem sublist_firstOccurrencesFrom (xs : List String) :
    ∀ seen : List String, (firstOccurrencesFrom seen xs).Sublist xs := by
  induction xs with
  | nil => intro seen; simp [firstOccurrencesFrom]
  | cons x xs ih =>
    intro seen
    unfold firstOccurrencesFrom
    split
    · exact (ih _).cons₂ x
    · exact (ih _).cons x

theorem retrieveAssignmentReservation_ok (h : Hierarchy) (clock : Nat → Int) (fuel : Nat)
    (assignees : List String) (w w1 : World) (state state1 : State)
    (reservation : Reservation)
    (hrun : retrieveAssignmentReservation h clock fuel assignees w state reservation
      = (w1, Outcome.ok state1)) :
    ∃ projects, resolveAssignees h clock fuel assignees w reservation.Projects
        = (w1, Outcome.ok projects)
      ∧ state1.Reservations = mapSet state.Reservations
          (reservation.Location ++ "." ++ reservation.Name)
          { reservation with Projects := trimDuplicates projects } := by
  unfold retrieveAssignmentReservation at hrun
  split at hrun
  · rename_i w2 projects hres
    simp only [Prod.mk.injEq, Outcome.ok.injEq] at hrun
    refine ⟨projects, ?_, ?_⟩
    · rw [hres, hrun.1]
    · rw [← hrun.2]
  · simp at hrun
  · simp at hrun
  · simp at hrun

/-- C9: for every list of strings `s`, `trimDuplicates s` is the list of first
occurrences of the non-empty elements of `s` in their original order; it
contains no empty string and no element twice, it contains every non-empty
element of `s` exactly once, and nothing that is not in `s`.  Consequently the
`Projects` list that `retrieveAssignmentReservation` writes back under the
reservation's key has no duplicates and no empty identifiers. -/
theorem trimDuplicates_firstOccurrences :
    (∀ s : List String,
      trimDuplicates s = firstOccurrences s
        ∧ "" ∉ trimDuplicates s
        ∧ (trimDuplicates s).Nodup
        ∧ (∀ x, x ∈ s → x ≠ "" → (trimDuplicates s).count x = 1)
        ∧ (∀ x, x ∈ trimDuplicates s → x ∈ s)
        ∧ (trimDuplicates s).Sublist s)
    ∧ (∀ (h : Hierarchy) (clock : Nat → Int) (fuel : Nat) (assignees : List String)
        (w w1 : World) (state state1 : State) (reservation : Reservation),
        retrieveAssignmentReservation h clock fuel assignees w state reservation
          = (w1, Outcome.ok state1) →
        ∃ r1, mapGet state1.Reservations (reservation.Location ++ "." ++ reservation.Name)
            = some r1
          ∧ r1.Projects.Nodup ∧ "" ∉ r1.Projects) := by
  have hmem : ∀ (s : List String) (x : String),
      x ∈ trimDuplicates s ↔ x ∈ s ∧ x ≠ "" := by
    intro s x
    rw [trimDuplicates_eq]
    unfold firstOccurrences
    rw [mem_firstOccurrencesFrom]
    simp
  have hnodup : ∀ s : List String, (trimDuplicates s).Nodup := by
    intro s
    rw [trimDuplicates_eq]
    exact nodup_firstOccurrencesFrom s []
  constructor
  · intro s
    refine ⟨trimDuplicates_eq s, ?_, hnodup s, ?_, ?_, ?_⟩
    · intro hin
      exact ((hmem s "").1 hin).2 rfl
    · intro x hx hne
      exact List.count_eq_one_of_mem (hnodup s) ((hmem s x).2 ⟨hx, hne⟩)
    · intro x hx
      exact ((hmem s x).1 hx).1
    · rw [trimDuplicates_eq]
      exact sublist_firstOccurrencesFrom s []
  · intro h clock fuel assignees w w1 state state1 reservation hrun
    obtain ⟨projects, _, hstate⟩ :=
      retrieveAssignmentReservation_ok h clock fuel assignees w w1 state state1 reservation hrun
    refine ⟨{ reservation with Projects := trimDuplicates projects }, ?_, hnodup projects, ?_⟩
    · rw [hstate, mapGet_mapSet]
      simp
    · intro hin
      exact ((hmem projects "").1 hin).2 rfl

/-- Witness of `trimDuplicates_firstOccurrences`: the fresh reservation `R2`
assigned to the organization of Scenario C, to its project `P1` once more and
to a project with an empty identifier receives the projects `P1`, `P2`, `P3`. -/
theorem trimDuplicates_firstOccurrences_witness :
    trimDuplicates ["P1", "P2", "P3", "P1", ""] = ["P1", "P2", "P3"]
      ∧ ∃ w1 state1,
          retrieveAssignmentReservation scenarioC secondsClock 3 assigneesC coldWorld
            discovered (freshReservation "R2" "US" (F64.ofInt 10)) = (w1, Outcome.ok state1)
          ∧ (mapGet state1.Reservations "US.R2").map Reservation.Projects
              = some ["P1", "P2", "P3"]
          ∧ ∃ r1, mapGet state1.Reservations
                ((freshReservation "R2" "US" (F64.ofInt 10)).Location ++ "."
                  ++ (freshReservation "R2" "US" (F64.ofInt 10)).Name) = some r1
              ∧ r1.Projects.Nodup ∧ "" ∉ r1.Projects := by
  refine ⟨by decide, _, _, rfl, by decide, ?_⟩
  exact trimDuplicates_firstOccurrences.2 scenarioC secondsClock 3 assigneesC coldWorld _
    discovered _ (freshReservation "R2" "US" (F64.ofInt 10)) rfl

/-! ## The state after the assignment stage -/

theorem Collected_retrieveAssignmentReservation (h : Hierarchy) (clock : Nat → Int)
    (fuel : Nat) (assignees : List String) (w w1 : World) (state state1 : State)
    (reservation : Reservation) (hc : state.Collected) (hr : reservation.Underived)
    (hrun : retrieveAssignmentReservation h clock fuel assignees w state reservation
      = (w1, Outcome.ok state1)) :
    state1.Collected := by
  obtain ⟨projects, _, hstate⟩ :=
    retrieveAssignmentReservation_ok h clock fuel assignees w w1 state state1 reservation hrun
  have hnew := Collected_mapSet state hc (reservation.Location ++ "." ++ reservation.Name)
    { reservation with Projects := trimDuplicates projects } hr
  cases state1 with
  | mk reservations =>
    simp only at hstate
    rw [hstate]
    exact hnew

/-! ## Workload collection -/

theorem jobOf_eq_some (current : JobDetail) (job : Job)
    (h : jobOf current = Outcome.ok (some job)) :
    ∃ configuration statistics stats,
      current.Configuration = some configuration ∧ configuration.JobType = "QUERY"
        ∧ current.Statistics = some statistics ∧ statistics.Query = some stats
        ∧ (latestSnapshot stats.Timeline).ElapsedMs ≠ 0
        ∧ (latestSnapshot stats.Timeline).TotalSlotMs ≠ 0
        ∧ job = { Name := current.Id,
                  Usage := F64.div (F64.ofInt (latestSnapshot stats.Timeline).TotalSlotMs)
                    (F64.ofInt (latestSnapshot stats.Timeline).ElapsedMs) } := by
  have hskip : skipJob current ≠ Outcome.ok (some job) := by
    unfold skipJob
    cases current.JobReference with
    | none => intro hc; cases hc
    | some _ => intro hc; cases hc
  unfold jobOf at h
  cases hconf : current.Configuration with
  | none =>
    rw [hconf] at h
    cases h
  | some configuration =>
    rw [hconf] at h
    simp only at h
    by_cases h1 : configuration.JobType = "LOAD"
    · rw [if_pos h1] at h
      exact absurd h hskip
    rw [if_neg h1] at h
    by_cases h2 : configuration.JobType = "COPY"
    · rw [if_pos h2] at h
      exact absurd h hskip
    rw [if_neg h2] at h
    by_cases h3 : configuration.JobType = "EXTRACT"
    · rw [if_pos h3] at h
      exact absurd h hskip
    rw [if_neg h3] at h
    by_cases h4 : configuration.JobType = "UNKNOWN"
    · rw [if_pos h4] at h
      exact absurd h hskip
    rw [if_neg h4] at h
    by_cases hq : configuration.JobType = "QUERY"
    · rw [if_pos hq] at h
      cases hstat : current.Statistics with
      | none =>
        rw [hstat] at h
        cases h
      | some statistics =>
        rw [hstat] at h
        simp only at h
        cases hquery : statistics.Query with
        | none =>
          rw [hquery] at h
          cases h
        | some stats =>
          rw [hquery] at h
          simp only at h
          by_cases hz : (latestSnapshot stats.Timeline).ElapsedMs = 0
              ∨ (latestSnapshot stats.Timeline).TotalSlotMs = 0
          · rw [if_pos hz] at h
            cases h
          · rw [if_neg hz] at h
            have hjob := Option.some.inj (Outcome.ok.inj h)
            exact ⟨configuration, statistics, stats, rfl, hq, rfl, hquery, (not_or.1 hz).1,
              (not_or.1 hz).2, hjob.symm⟩
    · rw [if_neg hq] at h
      cases h

theorem jobOf_complete (current : JobDetail) (hc : current.Complete) :
    jobOf current
      = Outcome.ok
          (if current.JobType = "QUERY" ∧ (latestSnapshot current.Timeline).ElapsedMs ≠ 0
              ∧ (latestSnapshot current.Timeline).TotalSlotMs ≠ 0 then
            some { Name := current.Id,
                   Usage := F64.div (F64.ofInt (latestSnapshot current.Timeline).TotalSlotMs)
                     (F64.ofInt (latestSnapshot current.Timeline).ElapsedMs) }
          else none) := by
  obtain ⟨configuration, reference, hconf, href, hquery⟩ := hc
  have hskip : skipJob current = Outcome.ok none := by
    unfold skipJob
    rw [href]
  have htype : current.JobType = configuration.JobType := by
    unfold JobDetail.JobType
    rw [hconf]
  unfold jobOf
  rw [hconf, htype]
  simp only
  by_cases hq : configuration.JobType = "QUERY"
  · have h1 : ¬ configuration.JobType = "LOAD" := by rw [hq]; decide
    have h2 : ¬ configuration.JobType = "COPY" := by rw [hq]; decide
    have h3 : ¬ configuration.JobType = "EXTRACT" := by rw [hq]; decide
    have h4 : ¬ configuration.JobType = "UNKNOWN" := by rw [hq]; decide
    obtain ⟨statistics, stats, hstat, hstats⟩ := hquery hq
    have htl : current.Timeline = stats.Timeline := by
      unfold JobDetail.Timeline
      rw [hstat]
      simp only
      rw [hstats]
    rw [if_neg h1, if_neg h2, if_neg h3, if_neg h4, if_pos hq, hstat, htl]
    simp only
    rw [hstats]
    simp only
    by_cases hz : (latestSnapshot stats.Timeline).ElapsedMs = 0
        ∨ (latestSnapshot stats.Timeline).TotalSlotMs = 0
    · rw [if_pos hz, if_neg]
      rintro ⟨_, ha, hb⟩
      exact hz.elim ha hb
    · rw [if_neg hz, if_pos ⟨hq, not_or.1 hz⟩]
  · simp only [hq, false_and, if_false]
    split_ifs <;> first | exact hskip | rfl

theorem retrieveJobsLoop_complete (client : BigQuery) (project : String)
    (detail : String → JobDetail) (jobIds : List String)
    (hget : ∀ jobId ∈ jobIds, client.get project jobId = Except.ok (detail jobId))
    (hcomplete : ∀ jobId ∈ jobIds, (detail jobId).Complete)
    (value : String → Option Job)
    (hvalue : ∀ jobId ∈ jobIds, jobOf (detail jobId) = Outcome.ok (value jobId))
    (sent : List Job) :
    retrieveJobsLoop client project (jobIds.map listed) sent
      = (sent ++ jobIds.filterMap value, Outcome.ok ()) := by
  induction jobIds generalizing sent with
  | nil => simp [retrieveJobsLoop]
  | cons jobId rest ih =>
    have hrest : ∀ j ∈ rest, client.get project j = Except.ok (detail j) :=
      fun j hj => hget j (List.mem_cons_of_mem _ hj)
    have hrestc : ∀ j ∈ rest, (detail j).Complete :=
      fun j hj => hcomplete j (List.mem_cons_of_mem _ hj)
    have hrestv : ∀ j ∈ rest, jobOf (detail j) = Outcome.ok (value j) :=
      fun j hj => hvalue j (List.mem_cons_of_mem _ hj)
    have hv := hvalue jobId (List.mem_cons_self _ _)
    simp only [List.map_cons, retrieveJobsLoop, listed, hget jobId (List.mem_cons_self _ _), hv]
    cases hj : value jobId with
    | none =>
      simp only [List.filterMap_cons, hj]
      exact ih hrest hrestc hrestv sent
    | some job =>
      simp only [List.filterMap_cons, hj]
      have h := ih hrest hrestc hrestv (sent ++ [job])
      simp only [listed] at h
      rw [h]
      simp

theorem retrieveJobsProject_complete (client : BigQuery) (project : String)
    (reservation : Reservation) (jobIds : List String) (detail : String → JobDetail)
    (hlist : client.list project = Except.ok (jobIds.map listed))
    (hget : ∀ jobId ∈ jobIds, client.get project jobId = Except.ok (detail jobId))
    (hcomplete : ∀ jobId ∈ jobIds, (detail jobId).Complete) :
    retrieveJobsProject client project reservation
      = (jobIds.filterMap (fun jobId => emitted (detail jobId)), Outcome.ok ()) := by
  unfold retrieveJobsProject
  rw [hlist]
  simp only
  rw [retrieveJobsLoop_complete client project detail jobIds hget hcomplete
    (fun jobId => emitted (detail jobId))
    (fun jobId hj => jobOf_complete (detail jobId) (hcomplete jobId hj)) []]
  simp

set_option maxRecDepth 100000 in
theorem bigQueryNoStatistics_run :
    retrieveJobsProject bigQueryNoStatistics "P1" scenarioBReservation
      = ([⟨"P1:US.q1", F64.ofInt 4⟩], Outcome.panic "nil pointer dereference") := by
  decide

set_option maxRecDepth 100000 in
theorem runningJobs_q2 :
    jobOf (runningJobs "q2") = Outcome.ok (some ⟨"P1:US.q2", F64.ofInt 3⟩) := by
  decide

/-- C10, on the code: project `P1` runs the query jobs `q1`, `nq` and `q2`; the
listing and every fetch succeed, and the answer for `nq` has a configuration
of kind QUERY and statistics but no `statistics.query`.  The job `q2` is of
kind QUERY and its latest sample has a non-zero elapsed time 2000 and a
non-zero slot time 6000, so that it gives rise to a job of usage 3; but the
worker reads the timeline of `nq` through the nil pointer, panics after
emitting the job for `q1`, and emits no job for `q2`. -/
theorem retrieveJobsProject_missing_statistics :
    bigQueryNoStatistics.list "P1" = Except.ok [listed "q1", listed "nq", listed "q2"]
      ∧ (∀ jobId ∈ ["q1", "nq", "q2"],
          bigQueryNoStatistics.get "P1" jobId = Except.ok (runningJobs jobId))
      ∧ (runningJobs "nq").Configuration = some ⟨"QUERY"⟩
      ∧ (runningJobs "nq").Statistics = some { Query := none, ReservationId := "P1:US.R2" }
      ∧ (runningJobs "q2").JobType = "QUERY"
      ∧ latestSnapshot (runningJobs "q2").Timeline = ⟨2000, 6000⟩
      ∧ jobOf (runningJobs "q2") = Outcome.ok (some ⟨"P1:US.q2", F64.ofInt 3⟩)
      ∧ (retrieveJobsProject bigQueryNoStatistics "P1" scenarioBReservation).2
          = Outcome.panic "nil pointer dereference"
      ∧ (retrieveJobsProject bigQueryNoStatistics "P1" scenarioBReservation).1
          = [⟨"P1:US.q1", F64.ofInt 4⟩]
      ∧ ∀ job ∈ (retrieveJobsProject bigQueryNoStatistics "P1" scenarioBReservation).1,
          job.Name ≠ "P1:US.q2" := by
  refine ⟨rfl, fun _ _ => rfl, by decide, by decide, by decide, by decide, runningJobs_q2, ?_, ?_,
    ?_⟩
  · rw [bigQueryNoStatistics_run]
  · rw [bigQueryNoStatistics_run]
  · rw [bigQueryNoStatistics_run]
    decide

/-! ## The latest timeline sample -/

theorem foldl_latest_ge_init (timeline : List QueryTimelineSample)
    (init : QueryTimelineSample) :
    init.ElapsedMs ≤ (timeline.foldl
      (fun latestSnapshot sample =>
        if sample.ElapsedMs > latestSnapshot.ElapsedMs then sample else latestSnapshot)
      init).ElapsedMs := by
  induction timeline generalizing init with
  | nil => exact le_refl _
  | cons s rest ih =>
    rw [List.foldl_cons]
    split
    · rename_i hgt
      exact le_trans (le_of_lt hgt) (ih s)
    · exact ih init

theorem foldl_latest_ge_mem (timeline : List QueryTimelineSample)
    (init : QueryTimelineSample) :
    ∀ s ∈ timeline, s.ElapsedMs ≤ (timeline.foldl
      (fun latestSnapshot sample =>
        if sample.ElapsedMs > latestSnapshot.ElapsedMs then sample else latestSnapshot)
      init).ElapsedMs := by
  induction timeline generalizing init with
  | nil => intro s hs; cases hs
  | cons x rest ih =>
    intro s hs
    rw [List.foldl_cons]
    rcases List.mem_cons.1 hs with heq | hmem
    · subst heq
      split
      · exact foldl_latest_ge_init rest s
      · rename_i hle
        exact le_trans (not_lt.1 hle) (foldl_latest_ge_init rest init)
    · exact ih _ s hmem

theorem foldl_latest_mem_or_init (timeline : List QueryTimelineSample)
    (init : QueryTimelineSample) :
    (timeline.foldl
      (fun latestSnapshot sample =>
        if sample.ElapsedMs > latestSnapshot.ElapsedMs then sample else latestSnapshot)
      init) ∈ timeline
    ∨ (timeline.foldl
      (fun latestSnapshot sample =>
        if sample.ElapsedMs > latestSnapshot.ElapsedMs then sample else latestSnapshot)
      init) = init ∧ ∀ s ∈ timeline, s.ElapsedMs ≤ init.ElapsedMs := by
  induction timeline generalizing init with
  | nil => exact Or.inr ⟨rfl, fun s hs => by cases hs⟩
  | cons x rest ih =>
    rw [List.foldl_cons]
    split
    · rcases ih x with hmem | ⟨heq, _⟩
      · exact Or.inl (List.mem_cons_of_mem _ hmem)
      · rw [heq]
        exact Or.inl (List.mem_cons_self _ _)
    · rename_i hle
      rcases ih init with hmem | ⟨heq, hall⟩
      · exact Or.inl (List.mem_cons_of_mem _ hmem)
      · refine Or.inr ⟨heq, ?_⟩
        intro s hs
        rcases List.mem_cons.1 hs with h1 | h1
        · rw [h1]
          exact not_lt.1 hle
        · exact hall s h1

/-- C14, as the code has it: for every query workload timeline, no sample has
a greater elapsed time than the sample selected as the latest; when the
timeline contains a sample with a positive elapsed time, the selected sample
is a member of the timeline; otherwise the selected sample is the zero sample
that the search starts from.  The slot time and the elapsed time used for the
usage ratio, their `float64` quotient, are both read from the selected
sample. -/
theorem latestSnapshot_greatest (timeline : List QueryTimelineSample) :
    (∀ s ∈ timeline, s.ElapsedMs ≤ (latestSnapshot timeline).ElapsedMs)
      ∧ ((∃ s ∈ timeline, 0 < s.ElapsedMs) → latestSnapshot timeline ∈ timeline)
      ∧ ((∀ s ∈ timeline, s.ElapsedMs ≤ 0) →
          latestSnapshot timeline = { ElapsedMs := 0, TotalSlotMs := 0 })
      ∧ ∀ (current : JobDetail) (job : Job), current.Timeline = timeline →
          jobOf current = Outcome.ok (some job) →
          job.Usage = F64.div (F64.ofInt (latestSnapshot timeline).TotalSlotMs)
            (F64.ofInt (latestSnapshot timeline).ElapsedMs) := by
  refine ⟨foldl_latest_ge_mem timeline _, ?_, ?_, ?_⟩
  · rintro ⟨s, hs, hpos⟩
    rcases foldl_latest_mem_or_init timeline { ElapsedMs := 0, TotalSlotMs := 0 } with
      hmem | ⟨_, hall⟩
    · exact hmem
    · exact absurd (hall s hs) (not_le.2 hpos)
  · intro hall
    rcases foldl_latest_mem_or_init timeline { ElapsedMs := 0, TotalSlotMs := 0 } with
      hmem | ⟨heq, _⟩
    · have h1 := hall _ hmem
      have h2 := foldl_latest_ge_init timeline { ElapsedMs := 0, TotalSlotMs := 0 }
      have h3 : (latestSnapshot timeline).ElapsedMs = 0 := le_antisymm h1 h2
      clear h1 h2 hmem
      unfold latestSnapshot at h3 ⊢
      induction timeline with
      | nil => rfl
      | cons x rest ih =>
        have hx : ¬ x.ElapsedMs > (0 : Int) := not_lt.2 (hall x (List.mem_cons_self _ _))
        rw [List.foldl_cons, if_neg hx] at h3 ⊢
        exact ih (fun s hs => hall s (List.mem_cons_of_mem _ hs)) h3
    · exact heq
  · intro current job htl hjob
    obtain ⟨_, statistics, stats, _, _, hstat, hquery, _, _, hj⟩ :=
      jobOf_eq_some current job hjob
    have ht : stats.Timeline = timeline := by
      rw [← htl]
      unfold JobDetail.Timeline
      rw [hstat]
      simp only
      rw [hquery]
    rw [hj, ht]

/-- Witness of `latestSnapshot_greatest`: of the samples (500, 100),
(1000, 4000) and (800, 900) the second is selected, and the usage of the job
is 4000 ÷ 1000. -/
theorem latestSnapshot_greatest_witness :
    (∃ s ∈ [(⟨500, 100⟩ : QueryTimelineSample), ⟨1000, 4000⟩, ⟨800, 900⟩], 0 < s.ElapsedMs)
      ∧ latestSnapshot [⟨500, 100⟩, ⟨1000, 4000⟩, ⟨800, 900⟩] = ⟨1000, 4000⟩
      ∧ latestSnapshot [⟨500, 100⟩, ⟨1000, 4000⟩, ⟨800, 900⟩]
          ∈ [(⟨500, 100⟩ : QueryTimelineSample), ⟨1000, 4000⟩, ⟨800, 900⟩] :=
  ⟨⟨⟨500, 100⟩, by decide, by decide⟩, by decide,
    (latestSnapshot_greatest [⟨500, 100⟩, ⟨1000, 4000⟩, ⟨800, 900⟩]).2.1
      ⟨⟨500, 100⟩, by decide, by decide⟩⟩

/-- C14 fails as stated: the timeline with the single sample (0, 5) contains a
sample, but the sample selected as the latest is the zero sample (0, 0), which
is not a member of the timeline. -/
theorem latestSnapshot_counterexample :
    [(⟨0, 5⟩ : QueryTimelineSample)] ≠ []
      ∧ latestSnapshot [⟨0, 5⟩] = ⟨0, 0⟩
      ∧ latestSnapshot [⟨0, 5⟩] ∉ [(⟨0, 5⟩ : QueryTimelineSample)] := by
  decide

/-! ## Failing upstream calls of the workload collector -/

theorem retrieveJobsProject_list_error (client : BigQuery) (project : String)
    (reservation : Reservation) (e : String) (hlist : client.list project = Except.error e) :
    retrieveJobsProject client project reservation
      = ([], Outcome.panic "nil pointer dereference") := by
  unfold retrieveJobsProject
  rw [hlist]

theorem retrieveJobsLoop_get_error (client : BigQuery) (project : String) (jobId : String)
    (rest : List JobListJobs) (sent : List Job) (e : String)
    (hget : client.get project jobId = Except.error e) :
    retrieveJobsLoop client project (listed jobId :: rest) sent
      = (sent, Outcome.panic "nil pointer dereference") := by
  simp only [retrieveJobsLoop, listed, hget]

set_option maxRecDepth 100000 in
theorem bigQueryGetFails_run :
    retrieveJobsProject bigQueryGetFails "P1" scenarioBReservation
      = ([⟨"P1:US.q1", F64.ofInt 4⟩], Outcome.panic "nil pointer dereference") := by
  decide

/-- C11, on the code: when the listing of an account's running workloads fails
the worker logs the error and then reads `list.Jobs` of the nil list, so that
it panics instead of completing; when the fetch of the detail of the listed
job `gone` fails it logs the error and then reads `current.Configuration` of
the nil job, so that it panics after the job `q1` and never emits for the
unaffected job `q2`. -/
theorem retrieveJobsProject_failure :
    bigQueryListFails.list "P1" = Except.error "googleapi: Error 403: Access Denied"
      ∧ retrieveJobsProject bigQueryListFails "P1" scenarioBReservation
          = ([], Outcome.panic "nil pointer dereference")
      ∧ bigQueryGetFails.list "P1" = Except.ok [listed "q1", listed "gone", listed "q2"]
      ∧ bigQueryGetFails.get "P1" "gone" = Except.error "googleapi: Error 404: Not found"
      ∧ (∃ job, jobOf (runningJobs "q2") = Outcome.ok (some job))
      ∧ (retrieveJobsProject bigQueryGetFails "P1" scenarioBReservation).2
          = Outcome.panic "nil pointer dereference"
      ∧ (retrieveJobsProject bigQueryGetFails "P1" scenarioBReservation).1.map Job.Name
          = ["P1:US.q1"] := by
  refine ⟨rfl, rfl, rfl, rfl, ⟨_, runningJobs_q2⟩, ?_, ?_⟩
  · rw [bigQueryGetFails_run]
  · rw [bigQueryGetFails_run]
    rfl

/-! ## The mutex of the cache -/

theorem Cache.GetTraced_fst (cache : Cache) (now : Int) (key : String) :
    (cache.GetTraced now key).1 = cache.Get now key := by
  unfold Cache.GetTraced Cache.Get
  split
  · rfl
  · simp only
    split <;> rfl

theorem Cache.GetTraced_fresh (cache : Cache) (now : Int) (key : String) (item : cacheItem)
    (h : cache.items key = some item) (hs : timeSub now item.updated < cache.maxTTL) :
    (cache.GetTraced now key).2
      = [CacheEvent.lock, CacheEvent.readItems key, CacheEvent.unlock,
          CacheEvent.readItems key] := by
  simp [Cache.GetTraced, h, not_le.2 hs]

/-- C15, on the code: `GetTraced` and `AddTraced` compute what `Get` and `Add`
compute; every map access of `Add` happens while the mutex is held, but a
`Get` that finds a fresh entry (here the entry of `folders/F1`, added at time
0 and read at time 1) releases the mutex and then reads the item map once
more, so that not every read of the map happens while the mutex is held. -/
theorem Cache.Get_reads_unlocked :
    (∀ (cache : Cache) (now : Int) (key : String),
        (cache.GetTraced now key).1 = cache.Get now key)
      ∧ (∀ (cache : Cache) (now : Int) (key : String) (projects : List String),
        (cache.AddTraced now key projects).1 = cache.Add now key projects
          ∧ guarded (cache.AddTraced now key projects).2 = true)
      ∧ (cacheF1.Get 1 "folders/F1").2 = Except.ok ["P1", "P2"]
      ∧ (cacheF1.GetTraced 1 "folders/F1").2
          = [CacheEvent.lock, CacheEvent.readItems "folders/F1", CacheEvent.unlock,
              CacheEvent.readItems "folders/F1"]
      ∧ guarded (cacheF1.GetTraced 1 "folders/F1").2 = false := by
  refine ⟨Cache.GetTraced_fst, fun cache now key projects => ⟨rfl, rfl⟩, rfl, by decide,
    by decide⟩

/-! ## Errors of the hierarchy resolver -/

theorem Cache.Get_of_not_fresh (c : Cache) (now : Int) (key : String)
    (h : c.hasFresh now key = false) :
    ∃ c1 msg, c.Get now key = (c1, Except.error msg) ∧ c1.maxTTL = c.maxTTL
      ∧ c1.items key = none ∧ ∀ k, c1.items k = c.items k ∨ c1.items k = none := by
  rcases Cache.Get_cases c now key with ⟨item, hitem, hfresh, _⟩ | hmiss
  · simp [Cache.hasFresh, hitem, hfresh] at h
  · exact hmiss

theorem retrieveResourceChildren_projects_world (h : Hierarchy) (clock : Nat → Int)
    (fuel : Nat) (w : World) (projectId : String) :
    (retrieveResourceChildren h clock fuel w "projects" projectId).1 = w := by
  cases fuel with
  | zero => rfl
  | succ f => rw [retrieveResourceChildren_projects]

theorem resolveProjects_world
    (recurse : World → String → String → World × Outcome (List String))
    (hrec : ∀ w projectId, (recurse w "projects" projectId).1 = w)
    (projects : List String) (w : World) (acc : List String) :
    (resolveProjects recurse projects w acc).1 = w := by
  induction projects generalizing w acc with
  | nil => rfl
  | cons projectId rest ih =>
    simp only [resolveProjects]
    have h1 := hrec w projectId
    split
    · rename_i w1 children hcall
      rw [hcall] at h1
      rw [ih]
      exact h1
    · rename_i w1 other _ hcall
      rw [hcall] at h1
      exact h1

/-- The folder loop keeps the nodes of `S` without entry when the recursive
call does, and it ends well only if no listed folder is in `S`. -/
theorem resolveFolders_absent (S : String → Prop)
    (recurse : World → String → String → World × Outcome (List String))
    (names : List String) :
    (∀ (w w1 : World) (name folderName : String) (out : Outcome (List String)),
        name ∈ names → (stringsSplit name '/')[1]? = some folderName →
        Absent S w.cache → recurse w "folders" folderName = (w1, out) →
        Absent S w1.cache ∧ (S ("folders" ++ "/" ++ folderName) → ∀ r, out ≠ Outcome.ok r)) →
    ∀ (w w1 : World) (acc : List String) (out : Outcome (List String)),
      resolveFolders recurse names w acc = (w1, out) → Absent S w.cache →
      Absent S w1.cache
        ∧ (∀ r, out = Outcome.ok r → ∀ name ∈ names, ∀ folderName,
            (stringsSplit name '/')[1]? = some folderName →
            ¬ S ("folders" ++ "/" ++ folderName)) := by
  induction names with
  | nil =>
    intro _ w w1 acc out hrun habs
    simp only [resolveFolders, Prod.mk.injEq] at hrun
    rw [← hrun.1]
    exact ⟨habs, fun r _ name hname => by cases hname⟩
  | cons name rest ih =>
    intro hrec w w1 acc out hrun habs
    have hrest := ih (fun w0 w2 n fn o hn => hrec w0 w2 n fn o (List.mem_cons_of_mem _ hn))
    simp only [resolveFolders] at hrun
    cases hsplit : (stringsSplit name '/')[1]? with
    | none =>
      rw [hsplit] at hrun
      simp only [Prod.mk.injEq] at hrun
      rw [← hrun.1, ← hrun.2]
      exact ⟨habs, fun r hr => by cases hr⟩
    | some folderName =>
      rw [hsplit] at hrun
      simp only at hrun
      cases hcall : recurse w "folders" folderName with
      | mk w2 out2 =>
        have hstep := hrec w w2 name folderName out2 (List.mem_cons_self _ _) hsplit habs hcall
        rw [hcall] at hrun
        cases out2 with
        | ok children =>
          simp only at hrun
          obtain ⟨habs1, hok⟩ := hrest w2 w1 (acc ++ children) out hrun hstep.1
          refine ⟨habs1, ?_⟩
          intro r hr n hn fn hfn
          rcases List.mem_cons.1 hn with heq | hmem
          · subst heq
            rw [hsplit] at hfn
            cases hfn
            exact fun hS => hstep.2 hS children rfl
          · exact hok r hr n hmem fn hfn
        | err e =>
          simp only [Prod.mk.injEq] at hrun
          rw [← hrun.1, ← hrun.2]
          exact ⟨hstep.1, fun r hr => by cases hr⟩
        | panic m =>
          simp only [Prod.mk.injEq] at hrun
          rw [← hrun.1, ← hrun.2]
          exact ⟨hstep.1, fun r hr => by cases hr⟩
        | outOfFuel =>
          simp only [Prod.mk.injEq] at hrun
          rw [← hrun.1, ← hrun.2]
          exact ⟨hstep.1, fun r hr => by cases hr⟩

/-- While calls on the nodes of `S` are running (none of them has a cache
entry, and each waits for a listed folder in `S` or for the current call), a
call on a folder or organization leaves the nodes of `S` without entry; it
does not end well when its own node is in `S`; and when it returns an error
its own node has no entry. -/
theorem retrieveResourceChildren_absent (h : Hierarchy) (clock : Nat → Int) (fuel : Nat) :
    ∀ (S : String → Prop) (w w1 : World) (rt rn : String) (out : Outcome (List String)),
      (rt = "organizations" ∨ rt = "folders") →
      Absent S w.cache → Waits h S (rt ++ "/" ++ rn) →
      retrieveResourceChildren h clock fuel w rt rn = (w1, out) →
      Absent S w1.cache
        ∧ (S (rt ++ "/" ++ rn) → ∀ r, out ≠ Outcome.ok r)
        ∧ (∀ e, out = Outcome.err e → w1.cache.items (rt ++ "/" ++ rn) = none) := by
  induction fuel with
  | zero =>
    intro S w w1 rt rn out _ habs _ hrun
    simp only [retrieveResourceChildren, Prod.mk.injEq] at hrun
    rw [← hrun.1, ← hrun.2]
    exact ⟨habs, (fun _ r hr => by cases hr), fun e he => by cases he⟩
  | succ f ih =>
    intro S w w1 rt rn out hkind habs hwaits hrun
    have hnotproj : ¬ rt = "projects" := by
      rcases hkind with hk | hk <;> (rw [hk]; decide)
    simp only [retrieveResourceChildren, hnotproj, if_false, hkind, if_true] at hrun
    rcases Cache.Get_cases w.cache (clock w.tick) (rt ++ "/" ++ rn) with
      ⟨item, hitem, _, hget⟩ | ⟨c1, msg, hget, _, hnone, hle⟩
    · rw [hget] at hrun
      simp only [Prod.mk.injEq] at hrun
      rw [← hrun.1, ← hrun.2]
      refine ⟨habs, ?_, fun e he => by cases he⟩
      intro hS
      rw [habs _ hS] at hitem
      cases hitem
    · rw [hget] at hrun
      simp only at hrun
      have habs1 : Absent (fun k => S k ∨ k = rt ++ "/" ++ rn) c1 := by
        intro k hk
        rcases hk with hk | hk
        · rcases hle k with h1 | h1
          · rw [h1]
            exact habs k hk
          · exact h1
        · rw [hk]
          exact hnone
      cases hf : h.listFolders (rt ++ "/" ++ rn) with
      | error e =>
        rw [hf] at hrun
        simp only [Prod.mk.injEq] at hrun
        rw [← hrun.1, ← hrun.2]
        exact ⟨fun k hk => habs1 k (Or.inl hk), (fun _ r hr => by cases hr), fun _ _ => hnone⟩
      | ok folders =>
        rw [hf] at hrun
        simp only at hrun
        have hrec : ∀ (w0 w2 : World) (name folderName : String) (o : Outcome (List String)),
            name ∈ folders → (stringsSplit name '/')[1]? = some folderName →
            Absent (fun k => S k ∨ k = rt ++ "/" ++ rn) w0.cache →
            retrieveResourceChildren h clock f w0 "folders" folderName = (w2, o) →
            Absent (fun k => S k ∨ k = rt ++ "/" ++ rn) w2.cache
              ∧ ((fun k => S k ∨ k = rt ++ "/" ++ rn) ("folders" ++ "/" ++ folderName) →
                  ∀ r, o ≠ Outcome.ok r) := by
          intro w0 w2 name fn o hname hsplit habs0 hcall
          have hw : Waits h (fun k => S k ∨ k = rt ++ "/" ++ rn) ("folders" ++ "/" ++ fn) := by
            intro k hk fl hfl
            rcases hk with hk | hk
            · obtain ⟨n, hn, fn2, hfn2, hc⟩ := hwaits k hk fl hfl
              exact ⟨n, hn, fn2, hfn2, Or.inl hc⟩
            · rw [hk, hf] at hfl
              cases hfl
              exact ⟨name, hname, fn, hsplit, Or.inr rfl⟩
          obtain ⟨h1, h2, _⟩ := ih _ w0 w2 "folders" fn o (Or.inr rfl) habs0 hw hcall
          exact ⟨h1, h2⟩
        cases hloop : resolveFolders (retrieveResourceChildren h clock f) folders
            { cache := c1, tick := w.tick + 1 } [] with
        | mk w2 out2 =>
          obtain ⟨habs2, hok2⟩ := resolveFolders_absent _ (retrieveResourceChildren h clock f)
            folders hrec { cache := c1, tick := w.tick + 1 } w2 [] out2 hloop habs1
          rw [hloop] at hrun
          cases out2 with
          | ok r =>
            simp only at hrun
            have hnotS : ¬ S (rt ++ "/" ++ rn) := by
              intro hS
              obtain ⟨n, hn, fn, hfn, hc⟩ := hwaits _ hS folders hf
              exact hok2 r rfl n hn fn hfn hc
            cases hp : h.listProjects (rt ++ "/" ++ rn) with
            | error e =>
              rw [hp] at hrun
              simp only [Prod.mk.injEq] at hrun
              rw [← hrun.1, ← hrun.2]
              exact ⟨fun k hk => habs2 k (Or.inl hk), (fun _ r0 hr => by cases hr),
                fun _ _ => habs2 _ (Or.inr rfl)⟩
            | ok projects =>
              rw [hp] at hrun
              simp only at hrun
              cases hproj : resolveProjects (retrieveResourceChildren h clock f) projects w2
                  r with
              | mk w3 out3 =>
                have hw3 : w3 = w2 := by
                  have hworld := resolveProjects_world (retrieveResourceChildren h clock f)
                    (retrieveResourceChildren_projects_world h clock f) projects w2 r
                  rw [hproj] at hworld
                  exact hworld
                rw [hproj] at hrun
                subst hw3
                cases out3 with
                | ok r3 =>
                  simp only [Prod.mk.injEq] at hrun
                  rw [← hrun.1, ← hrun.2]
                  refine ⟨?_, fun hS => absurd hS hnotS, fun e he => by cases he⟩
                  intro k hk
                  have hne : ¬ k = rt ++ "/" ++ rn := fun hkk => hnotS (hkk ▸ hk)
                  simp only [Cache.Add, hne, if_false]
                  exact habs2 k (Or.inl hk)
                | err e =>
                  simp only [Prod.mk.injEq] at hrun
                  rw [← hrun.1, ← hrun.2]
                  exact ⟨fun k hk => habs2 k (Or.inl hk), (fun _ r0 hr => by cases hr),
                    fun _ _ => habs2 _ (Or.inr rfl)⟩
                | panic m =>
                  simp only [Prod.mk.injEq] at hrun
                  rw [← hrun.1, ← hrun.2]
                  exact ⟨fun k hk => habs2 k (Or.inl hk), (fun _ r0 hr => by cases hr),
                    fun _ _ => habs2 _ (Or.inr rfl)⟩
                | outOfFuel =>
                  simp only [Prod.mk.injEq] at hrun
                  rw [← hrun.1, ← hrun.2]
                  exact ⟨fun k hk => habs2 k (Or.inl hk), (fun _ r0 hr => by cases hr),
                    fun _ _ => habs2 _ (Or.inr rfl)⟩
          | err e =>
            simp only [Prod.mk.injEq] at hrun
            rw [← hrun.1, ← hrun.2]
            exact ⟨fun k hk => habs2 k (Or.inl hk), (fun _ r0 hr => by cases hr),
              fun _ _ => habs2 _ (Or.inr rfl)⟩
          | panic m =>
            simp only [Prod.mk.injEq] at hrun
            rw [← hrun.1, ← hrun.2]
            exact ⟨fun k hk => habs2 k (Or.inl hk), (fun _ r0 hr => by cases hr),
              fun _ _ => habs2 _ (Or.inr rfl)⟩
          | outOfFuel =>
            simp only [Prod.mk.injEq] at hrun
            rw [← hrun.1, ← hrun.2]
            exact ⟨fun k hk => habs2 k (Or.inl hk), (fun _ r0 hr => by cases hr),
              fun _ _ => habs2 _ (Or.inr rfl)⟩

theorem resolveFolders_append
    (recurse : World → String → String → World × Outcome (List String))
    (pre rest : List String) :
    ∀ (w wmid : World) (acc accmid : List String),
      resolveFolders recurse pre w acc = (wmid, Outcome.ok accmid) →
      resolveFolders recurse (pre ++ rest) w acc = resolveFolders recurse rest wmid accmid := by
  induction pre with
  | nil =>
    intro w wmid acc accmid hpre
    simp only [resolveFolders, Prod.mk.injEq, Outcome.ok.injEq] at hpre
    rw [List.nil_append, hpre.1, hpre.2]
  | cons name pre ih =>
    intro w wmid acc accmid hpre
    simp only [List.cons_append, resolveFolders] at hpre ⊢
    cases hsplit : (stringsSplit name '/')[1]? with
    | none =>
      rw [hsplit] at hpre
      simp at hpre
    | some folderName =>
      rw [hsplit] at hpre
      simp only at hpre ⊢
      cases hcall : recurse w "folders" folderName with
      | mk w2 out2 =>
        rw [hcall] at hpre
        cases out2 with
        | ok children =>
          simp only at hpre ⊢
          exact ih w2 wmid (acc ++ children) accmid hpre
        | err e => simp at hpre
        | panic m => simp at hpre
        | outOfFuel => simp at hpre

/-- C12: for every folder or organization node with no fresh cache entry: if
listing its child folders fails, or the recursive resolution of a child folder
returns an error (the folders before it having been resolved), or listing its
child projects fails (the folders having been resolved), then
`retrieveResourceChildren` on that node returns that error with no result
list; and whenever it returns an error the cache has no entry for that node
afterwards. -/
theorem retrieveResourceChildren_error (h : Hierarchy) (clock : Nat → Int) (fuel : Nat)
    (w : World) (rt rn : String) (hkind : rt = "organizations" ∨ rt = "folders")
    (hmiss : w.cache.hasFresh (clock w.tick) (rt ++ "/" ++ rn) = false) :
    (∀ e, h.listFolders (rt ++ "/" ++ rn) = Except.error e →
        retrieveResourceChildren h clock (fuel + 1) w rt rn
          = ({ cache := (w.cache.Get (clock w.tick) (rt ++ "/" ++ rn)).1, tick := w.tick + 1 },
              Outcome.err e))
      ∧ (∀ (folders pre post : List String) (name folderName : String) (wmid w2 : World)
          (acc : List String) (e : String),
          h.listFolders (rt ++ "/" ++ rn) = Except.ok folders → folders = pre ++ name :: post →
          resolveFolders (retrieveResourceChildren h clock fuel) pre
            { cache := (w.cache.Get (clock w.tick) (rt ++ "/" ++ rn)).1, tick := w.tick + 1 } []
              = (wmid, Outcome.ok acc) →
          (stringsSplit name '/')[1]? = some folderName →
          retrieveResourceChildren h clock fuel wmid "folders" folderName
            = (w2, Outcome.err e) →
          retrieveResourceChildren h clock (fuel + 1) w rt rn = (w2, Outcome.err e))
      ∧ (∀ (folders : List String) (w2 : World) (r : List String) (e : String),
          h.listFolders (rt ++ "/" ++ rn) = Except.ok folders →
          resolveFolders (retrieveResourceChildren h clock fuel) folders
            { cache := (w.cache.Get (clock w.tick) (rt ++ "/" ++ rn)).1, tick := w.tick + 1 } []
              = (w2, Outcome.ok r) →
          h.listProjects (rt ++ "/" ++ rn) = Except.error e →
          retrieveResourceChildren h clock (fuel + 1) w rt rn = (w2, Outcome.err e))
      ∧ (∀ (w1 : World) (e : String),
          retrieveResourceChildren h clock (fuel + 1) w rt rn = (w1, Outcome.err e) →
          w1.cache.items (rt ++ "/" ++ rn) = none) := by
  have hnotproj : ¬ rt = "projects" := by
    rcases hkind with hk | hk <;> (rw [hk]; decide)
  obtain ⟨c1, msg, hget, _, _, _⟩ := Cache.Get_of_not_fresh w.cache (clock w.tick)
    (rt ++ "/" ++ rn) hmiss
  refine ⟨?_, ?_, ?_, ?_⟩
  · intro e hf
    simp only [retrieveResourceChildren, hnotproj, if_false, hkind, if_true, hget, hf]
  · intro folders pre post name folderName wmid w2 acc e hf hsplit hpre hname hcall
    have hloop : resolveFolders (retrieveResourceChildren h clock fuel) folders
        { cache := c1, tick := w.tick + 1 } [] = (w2, Outcome.err e) := by
      rw [hget] at hpre
      rw [hsplit, resolveFolders_append _ pre (name :: post) _ wmid [] acc hpre]
      simp only [resolveFolders, hname, hcall]
    simp only [retrieveResourceChildren, hnotproj, if_false, hkind, if_true, hget, hf, hloop]
  · intro folders w2 r e hf hloop hp
    rw [hget] at hloop
    simp only [retrieveResourceChildren, hnotproj, if_false, hkind, if_true, hget, hf, hloop,
      hp]
  · intro w1 e hrun
    exact (retrieveResourceChildren_absent h clock (fuel + 1) (fun _ => False) w w1 rt rn
      (Outcome.err e) hkind (fun _ hk => hk.elim) (fun _ hk => hk.elim) hrun).2.2 e rfl

/-- Witness of `retrieveResourceChildren_error`: resolving `ORG1` of `deniedF2`
from the cold cache resolves the folder `F1` and then returns the error of
the listing under `F2`; the cache has an entry for `F1` and none for `ORG1`. -/
theorem retrieveResourceChildren_error_witness :
    coldWorld.cache.hasFresh (secondsClock coldWorld.tick) ("organizations" ++ "/" ++ "ORG1")
        = false
      ∧ retrieveResourceChildren deniedF2 secondsClock (2 + 1) coldWorld "organizations" "ORG1"
          = (deniedWorld, Outcome.err "googleapi: Error 403: permission denied")
      ∧ (deniedWorld.cache.items "folders/F1").map cacheItem.projects = some ["P1", "P2"]
      ∧ deniedWorld.cache.items ("organizations" ++ "/" ++ "ORG1") = none :=
  ⟨rfl, rfl, by decide,
    (retrieveResourceChildren_error deniedF2 secondsClock 2 coldWorld "organizations" "ORG1"
      (Or.inl rfl) rfl).2.2.2 deniedWorld "googleapi: Error 403: permission denied" rfl⟩

end statequery
